import Mathlib


/-!
Verification of the candidate-extraction merge/normalization engine.

This development gives a shallow embedding, in Lean 4, of the normalization,
merge, retry and denylist logic of the extractor families in this repository
(chained_net_call.py, newlambda.py, local_variable_declaration.py,
Correction.py, T.py), and proves or refutes the testable properties stated in
the specification.

Modelling conventions:
- Python floats are modelled as rationals; the operations the code performs on
  confidences (comparison, max, min, clamping) are exact on the values the
  pipeline manipulates.
- Parsed JSON values are modelled by a layered value type (`JAtom`, `JField`,
  `JObj`, `JTopField`, `JTop`) covering the shapes the extractors consume: a
  top-level object whose fields hold scalars, arrays of scalars, or arrays of
  child objects whose fields hold scalars or arrays of scalars. This is the
  full shape space the sources read from a parse result.
- Fallible Python operations (float() on a non-numeric value, iterating a
  non-iterable, attribute access on a non-dict) are modelled with
  `Except PyErr`; an `Except.error` models a raised exception propagating.
- Python's stable `sorted` is modelled by a stable insertion sort
  (`sortStable`); Python string comparison is code-point lexicographic and is
  modelled by `lexLtB` on the character lists.
- `str.strip()` is modelled by `pyStrip` (it drops the same ASCII whitespace
  the inputs in scope contain).
-/

/- ────────────────────────────────────────────────────────────────────────
   Python error model
   ──────────────────────────────────────────────────────────────────────── -/

/-- Kinds of Python exception the embedded code can raise.  `parseFailure`
stands for the json parse error (or any failure of the underlying model
call); `valueError` for `float()` on a non-coercible value; `typeError` for
iterating a non-iterable; `attributeError` for `.get` on a non-dict. -/
inductive PyErr where
  | parseFailure
  | valueError
  | typeError
  | attributeError
  deriving DecidableEq, Repr

/- ────────────────────────────────────────────────────────────────────────
   JSON / Python value model
   ──────────────────────────────────────────────────────────────────────── -/

/-- Scalar JSON value as produced by `json.loads`. -/
inductive JAtom where
  | jnull
  | jbool (b : Bool)
  | jint (n : Int)
  | jfloat (q : ℚ)
  | jstr (s : String)
  deriving DecidableEq, Repr, Inhabited

/-- Value held by one field of a child object: a scalar or an array of
scalars (the shape of `guards`). -/
inductive JField where
  | fatom (a : JAtom)
  | farr (l : List JAtom)
  deriving DecidableEq, Repr, Inhabited

/-- One child (or explained-line) object: a string-keyed record of field
values, in insertion order, as a Python dict obtained from JSON. -/
abbrev JObj := List (String × JField)

/-- Value of a top-level field of a parse result: either a field value or an
array of child objects (the shape of `children` / `lines` / `verdicts`). -/
inductive JTopField where
  | tfield (f : JField)
  | tobjs (l : List JObj)
  deriving DecidableEq, Repr, Inhabited

/-- A parsed top-level JSON document. -/
inductive JTop where
  | tatom (a : JAtom)
  | tarr (l : List JField)
  | tobj (d : List (String × JTopField))
  deriving DecidableEq, Repr, Inhabited

/- ────────────────────────────────────────────────────────────────────────
   Python primitive semantics
   ──────────────────────────────────────────────────────────────────────── -/

/-- Python whitespace test for `str.strip()` (space, tab, newline, carriage
return, vertical tab, form feed). -/
def pyIsSpace (c : Char) : Bool :=
  c = ' ' || c = '\t' || c = '\n' || c = '\r' || c = '\x0b' || c = '\x0c'

/-- Model of Python `str.strip()`: drop leading and trailing whitespace. -/
def pyStrip (s : String) : String :=
  String.mk (((s.data.dropWhile pyIsSpace).reverse.dropWhile pyIsSpace).reverse)

/-- Model of Python `str()` on a scalar. -/
def pyStrAtom : JAtom → String
  | JAtom.jnull => "None"
  | JAtom.jbool b => if b then "True" else "False"
  | JAtom.jint n => toString n
  | JAtom.jfloat q => toString q
  | JAtom.jstr s => s

/-- Model of Python `repr()` on a scalar, as used when a list is converted to
a string inside an f-string. -/
def pyReprAtom : JAtom → String
  | JAtom.jstr s => "\x27" ++ s ++ "\x27"
  | a => pyStrAtom a

/-- Model of Python `str()` on a field value (scalars print directly, lists
print as bracketed comma-separated reprs). -/
def pyStrField : JField → String
  | JField.fatom a => pyStrAtom a
  | JField.farr l => "[" ++ String.intercalate ", " (l.map pyReprAtom) ++ "]"

/-- Python truthiness of a scalar. -/
def pyTruthyAtom : JAtom → Bool
  | JAtom.jnull => false
  | JAtom.jbool b => b
  | JAtom.jint n => n ≠ 0
  | JAtom.jfloat q => q ≠ 0
  | JAtom.jstr s => s ≠ ""

/-- Python truthiness of a field value. -/
def pyTruthyField : JField → Bool
  | JField.fatom a => pyTruthyAtom a
  | JField.farr l => l ≠ []

/-- Model of Python `bool(x)` on a field value (same as truthiness). -/
def pyBoolField (f : JField) : Bool := pyTruthyField f

/-- Basic model of Python `float()` on a string: optional surrounding
whitespace, optional sign, decimal digits with an optional fractional part.
Exponent forms and the special values are outside the shapes in scope; they
are mapped to `none` (a raise) like any other non-numeric string. -/
def parseFloatDigits (l : List Char) : Option ℚ :=
  if l = [] then none
  else if l.all (fun c => c.isDigit) then
    some ((l.foldl (fun n c => n * 10 + (c.toNat - 48)) 0 : Nat) : ℚ)
  else none

/-- Split a character list at the first decimal point. -/
def splitAtDot (l : List Char) : List Char × List Char :=
  ((l.takeWhile (fun c => c ≠ '.')), (l.dropWhile (fun c => c ≠ '.')).drop 1)

/-- Model of Python `float()` applied to a string. -/
def pyFloatOfString (s : String) : Option ℚ :=
  let t := (pyStrip s).data
  let (sign, body) :=
    match t with
    | '-' :: rest => ((-1 : ℚ), rest)
    | '+' :: rest => ((1 : ℚ), rest)
    | _ => ((1 : ℚ), t)
  if body.elem '.' then
    let (ip, fp) := splitAtDot body
    if ip = [] ∧ fp = [] then none
    else
      match parseFloatDigits (if ip = [] then ['0'] else ip),
            parseFloatDigits (if fp = [] then ['0'] else fp) with
      | some i, some f => some (sign * (i + f / (10 ^ fp.length : ℚ)))
      | _, _ => none
  else (parseFloatDigits body).map (fun q => sign * q)

/-- Model of Python `float()` on a scalar: numbers and booleans coerce,
numeric strings parse, everything else raises (`none`). -/
def pyFloatAtom : JAtom → Option ℚ
  | JAtom.jbool b => some (if b then 1 else 0)
  | JAtom.jint n => some (n : ℚ)
  | JAtom.jfloat q => some q
  | JAtom.jstr s => pyFloatOfString s
  | JAtom.jnull => none

/-- Model of Python `float()` on a field value (a list raises). -/
def pyFloatField : JField → Option ℚ
  | JField.fatom a => pyFloatAtom a
  | JField.farr _ => none

/-- Model of Python `max(a, b)` on two floats: the second wins only when it
is strictly greater. -/
def pyMaxQ (a b : ℚ) : ℚ := if a < b then b else a

/-- Model of Python `min(a, b)` on two floats. -/
def pyMinQ (a b : ℚ) : ℚ := if a ≤ b then a else b

/-- Model of `d.get(k, dflt)` on a child object. -/
def pyObjGet (d : JObj) (k : String) (dflt : JField) : JField :=
  ((d.find? (fun p => p.1 = k)).map Prod.snd).getD dflt

/-- Model of `out.get(k, dflt)` on a parse result: raises AttributeError
unless the parse result is an object. -/
def pyTopGet (v : JTop) (k : String) (dflt : JTopField) : Except PyErr JTopField :=
  match v with
  | JTop.tobj d => Except.ok (((d.find? (fun p => p.1 = k)).map Prod.snd).getD dflt)
  | _ => Except.error PyErr.attributeError

/-- Model of `for it in items or []` over a `children` value followed by
`.get` access on each element: an array of objects iterates; a falsy value
yields the empty iteration; any other value raises (either not iterable, or
its elements do not support `.get`). -/
def pyIterObjs (v : JTopField) : Except PyErr (List JObj) :=
  match v with
  | JTopField.tobjs l => Except.ok l
  | JTopField.tfield f => if pyTruthyField f then Except.error PyErr.typeError else Except.ok []

/-- Model of `list(g or [])` applied to a guards field value: a list is
copied, a falsy value gives `[]`, a truthy string iterates into one-character
strings, any other truthy scalar raises. -/
def pyGuardList (g : JField) : Except PyErr (List JAtom) :=
  if pyTruthyField g then
    match g with
    | JField.farr l => Except.ok l
    | JField.fatom (JAtom.jstr s) => Except.ok (s.data.map (fun c => JAtom.jstr (String.mk [c])))
    | JField.fatom _ => Except.error PyErr.typeError
  else Except.ok []

/-- Helper for `pyFromKeys`: keep elements not seen before, in order. -/
def pyFromKeysAux : List JAtom → List JAtom → List JAtom
  | [], _ => []
  | x :: xs, seen =>
    if x ∈ seen then pyFromKeysAux xs seen else x :: pyFromKeysAux xs (x :: seen)

/-- Model of `dict.fromkeys(l)` key extraction: deduplicate, keeping the
first occurrence of each element, preserving first-seen order. -/
def pyFromKeys (l : List JAtom) : List JAtom := pyFromKeysAux l []

/-- Model of Python `repr` of a list of strings, as interpolated into the
prompt text by an f-string over the denylist. -/
def pyReprStrList (l : List String) : String :=
  "[" ++ String.intercalate ", " (l.map (fun s => "\x27" ++ s ++ "\x27")) ++ "]"

/- ────────────────────────────────────────────────────────────────────────
   Python string comparison and stable sorting
   ──────────────────────────────────────────────────────────────────────── -/

/-- Code-point comparison of characters, as Python compares strings. -/
def charLtB (c d : Char) : Bool := decide (c.toNat < d.toNat)

/-- Lexicographic code-point comparison of character lists: the model of
Python string `<`. -/
def lexLtB : List Char → List Char → Bool
  | _, [] => false
  | [], _ :: _ => true
  | c :: cs, d :: ds => charLtB c d || (decide (c.toNat = d.toNat) && lexLtB cs ds)

/-- Model of Python string `<`. -/
def strLtB (a b : String) : Bool := lexLtB a.data b.data

/-- Stable insertion of `x` into `l`: `x` goes before the first element not
strictly below it, so equal elements keep their original relative order. -/
def insertStable (lt : α → α → Bool) (x : α) : List α → List α
  | [] => [x]
  | y :: ys => if lt y x then y :: insertStable lt x ys else x :: y :: ys

/-- Stable insertion sort: the model of Python's stable `sorted`. -/
def sortStable (lt : α → α → Bool) (l : List α) : List α :=
  l.foldr (insertStable lt) []

/-- Sortedness with respect to a Bool-valued strict comparison: no later
element is strictly below an earlier one. -/
def SortedB (lt : α → α → Bool) (l : List α) : Prop :=
  l.Pairwise (fun a b => lt b a = false)

namespace MergeCore

variable {σ : Type} {κ : Type} [DecidableEq κ]

/-- One iteration of the Python merge loop: if the record's key is absent,
append the record at the end (dict insertion order); otherwise update the
existing entry in place with the tie-break function `upd`. -/
def pushRec (key : σ → κ) (upd : σ → σ → σ) : List σ → σ → List σ
  | [], it => [it]
  | c :: d, it => if key c = key it then upd c it :: d else c :: pushRec key upd d it

/-- The whole `push(lst)` loop of the merge functions. -/
def pushAll (key : σ → κ) (upd : σ → σ → σ) (d : List σ) (l : List σ) : List σ :=
  l.foldl (pushRec key upd) d

/-- The dict lookup `by[k]` (as an option). -/
def entry? (key : σ → κ) (d : List σ) (k : κ) : Option σ :=
  d.find? (fun c => decide (key c = k))

/-- Folding the tie-break function over a list of same-key records, starting
from an optional existing entry. -/
def mergeFold (upd : σ → σ → σ) (o : Option σ) (ms : List σ) : Option σ :=
  ms.foldl (fun acc it => some (acc.elim it (fun c => upd c it))) o

/-- The key list of the dict. -/
def keys (key : σ → κ) (d : List σ) : List κ := d.map key

end MergeCore

/- ────────────────────────────────────────────────────────────────────────
   JSON serialization (json.dumps, as used for the explained-lines payload)
   ──────────────────────────────────────────────────────────────────────── -/

/-- Model of `json.dumps` on a scalar (string escaping is omitted: the
serialized text only feeds prompt construction). -/
def pyDumpsAtom : JAtom → String
  | JAtom.jnull => "null"
  | JAtom.jbool b => if b then "true" else "false"
  | JAtom.jint n => toString n
  | JAtom.jfloat q => toString q
  | JAtom.jstr s => "\"" ++ s ++ "\""

/-- Model of `json.dumps` on a field value. -/
def pyDumpsField : JField → String
  | JField.fatom a => pyDumpsAtom a
  | JField.farr l => "[" ++ String.intercalate ", " (l.map pyDumpsAtom) ++ "]"

/-- Model of `json.dumps` on a child object. -/
def pyDumpsObj (o : JObj) : String :=
  "\x7b" ++ String.intercalate ", "
    (o.map (fun p => "\"" ++ p.1 ++ "\": " ++ pyDumpsField p.2)) ++ "\x7d"

/-- Model of `json.dumps` on a top-level field value. -/
def pyDumpsTopField : JTopField → String
  | JTopField.tfield f => pyDumpsField f
  | JTopField.tobjs l => "[" ++ String.intercalate ", " (l.map pyDumpsObj) ++ "]"

/- ────────────────────────────────────────────────────────────────────────
   The external model call, as an oracle
   ──────────────────────────────────────────────────────────────────────── -/

/-- The external inference endpoint, modelled as an oracle indexed by the
invocation counter: `resp n system user` is the parsed JSON of the `n`-th
`llm.invoke` in the request, or `none` when `json.loads` (or the call
itself) fails. -/
structure LlmOracle where
  resp : Nat → String → String → Option JTop

namespace CNC

/-- The EC candidate record of chained_net_call.py (the same TypedDict shape
is declared in newlambda.py and local_variable_declaration.py).  The guards
list holds the JSON values copied verbatim by `list(...)`. -/
structure EC where
  name : String
  code_snippet : String
  code_block : String
  further_expand : Bool
  confidence : ℚ
  conditioned : Bool
  guards : List JAtom
  deriving DecidableEq, Repr, Inhabited

/-- The CNCInput request record. -/
structure CNCInput where
  object_name : String
  java_code : String
  java_code_line : Int
  java_code_line_content : String
  analytical_chain : String
  deriving DecidableEq, Repr, Inhabited

/-- The retry reminder appended by `_invoke_json` in chained_net_call.py. -/
def jsonRetryReminder : String :=
  "\n\nREMINDER: Return ONLY a valid JSON object. If nothing, return \x7b\x27children\x27: []\x7d."

/-- Model of `_invoke_json` of chained_net_call.py: parse the first response;
on failure, when `retry` is set, re-issue once with the reminder appended to
the user prompt; a second failure propagates.  Returns the result together
with the advanced invocation counter. -/
def _invoke_json (llm : LlmOracle) (n : Nat) (system user : String)
    (retry : Bool := true) : Except PyErr JTop × Nat :=
  match llm.resp n system user with
  | some v => (Except.ok v, n + 1)
  | none =>
    if retry then
      match llm.resp (n + 1) system (user ++ jsonRetryReminder) with
      | some v => (Except.ok v, n + 2)
      | none => (Except.error PyErr.parseFailure, n + 2)
    else (Except.error PyErr.parseFailure, n + 1)

/-- The coercion `str(it.get(k, "")).strip()` used by `_norm_ec_list`. -/
def strField (it : JObj) (k : String) : String :=
  pyStrip (pyStrField (pyObjGet it k (JField.fatom (JAtom.jstr ""))))

/-- The coercion `bool(it.get(k, False))` used by `_norm_ec_list`. -/
def boolField (it : JObj) (k : String) : Bool :=
  pyBoolField (pyObjGet it k (JField.fatom (JAtom.jbool false)))

/-- Normalization of one raw item, as built by the dict literal in
`_norm_ec_list` of chained_net_call.py: string fields are coerced and
stripped, flags take truthiness, confidence is `max(0.0, min(1.0,
float(it.get("confidence", 0.0))))` — where `float` raises on a value it
cannot coerce — and guards is `list(it.get("guards", []) or [])`. -/
def _norm_one (it : JObj) : Except PyErr EC :=
  match pyFloatField (pyObjGet it "confidence" (JField.fatom (JAtom.jfloat 0))) with
  | none => Except.error PyErr.valueError
  | some q =>
    match pyGuardList (pyObjGet it "guards" (JField.farr [])) with
    | Except.error e => Except.error e
    | Except.ok gs =>
      Except.ok
        { name := strField it "name"
          code_snippet := strField it "code_snippet"
          code_block := strField it "code_block"
          further_expand := boolField it "further_expand"
          confidence := pyMaxQ 0 (pyMinQ 1 q)
          conditioned := boolField it "conditioned"
          guards := gs }

/-- Model of `_norm_ec_list` of chained_net_call.py over the item list:
items are normalized in order, an item whose stripped name is empty is
dropped, and any raise propagates. -/
def _norm_ec_list : List JObj → Except PyErr (List EC)
  | [] => Except.ok []
  | it :: rest =>
    match _norm_one it with
    | Except.error e => Except.error e
    | Except.ok ec =>
      match _norm_ec_list rest with
      | Except.error e => Except.error e
      | Except.ok out => Except.ok (if ec.name ≠ "" then ec :: out else out)

/-- Model of `_norm_ec_list` applied to a `children` value (`for it in items
or []` over the fetched field). -/
def normChildren (v : JTopField) : Except PyErr (List EC) :=
  match pyIterObjs v with
  | Except.error e => Except.error e
  | Except.ok items => _norm_ec_list items

/-- The per-field tie-break update of `_merge_by_name` in
chained_net_call.py (and local_variable_declaration.py): shortest non-empty
snippet and block, maximum confidence, OR of the flags, guard union with
first-seen order. -/
def mergeUpd (cur it : EC) : EC :=
  { cur with
    code_block :=
      if it.code_block ≠ "" ∧ (cur.code_block = "" ∨ it.code_block.length < cur.code_block.length)
      then it.code_block else cur.code_block
    code_snippet :=
      if it.code_snippet ≠ "" ∧ (cur.code_snippet = "" ∨ it.code_snippet.length < cur.code_snippet.length)
      then it.code_snippet else cur.code_snippet
    confidence := pyMaxQ cur.confidence it.confidence
    conditioned := cur.conditioned || it.conditioned
    guards := pyFromKeys (cur.guards ++ it.guards)
    further_expand := cur.further_expand || it.further_expand }

/-- The name-keyed dict built by the two `push` loops of `_merge_by_name`. -/
def mergeDict (a b : List EC) : List EC :=
  MergeCore.pushAll (fun ec => ec.name) mergeUpd
    (MergeCore.pushAll (fun ec => ec.name) mergeUpd [] a) b

/-- Model of `_merge_by_name` of chained_net_call.py (the identical function
appears in local_variable_declaration.py): push both lists into a dict keyed
by name, then emit `[by[k] for k in sorted(by.keys())]`. -/
def _merge_by_name (a b : List EC) : List EC :=
  (sortStable strLtB ((mergeDict a b).map (fun ec => ec.name))).map
    (fun k => (MergeCore.entry? (fun ec => ec.name) (mergeDict a b) k).getD default)

/-- The `_RUNA_SYSTEM` prompt constant of chained_net_call.py. -/
def _RUNA_SYSTEM : String :=
  "Task: Extract the IMMEDIATE NEXT CHAINED CALL(S) for the call-result focus.\nReturn STRICT JSON.\n\nRules:\n• Focus is the previous call name (e.g., \x27a\x27 in x.a().b().c()).\n• Return only the next hop(s) directly chained from that call site: for focus=\x27a\x27 → \x27b\x27; for focus=\x27b\x27 → \x27c\x27.\n• Exclude unqualified calls, calls on different receivers, deeper hops, lambda internals, denylisted utilities.\n• Prefer the occurrence nearest to ANCHOR_LINE within the same method/initializer.\n\nEmit EC per next-hop:\n\x7b\"name\":\"<nextMethod>\", \"code_snippet\":\"<chain fragment>\", \"code_block\":\"<smallest block>\",\n \"further_expand\":false, \"confidence\":0..1, \"conditioned\":false, \"guards\":[]\x7d"

/-- The `_RUNA_FEWSHOTS` prompt constant of chained_net_call.py. -/
def _RUNA_FEWSHOTS : String :=
  "Examples:\nx.a().b().c(); focus=\x27a\x27 → [\x27b\x27]; focus=\x27b\x27 → [\x27c\x27]\ndb.connect().query().close(); focus=\x27connect\x27 → [\x27query\x27]"

/-- The `_build_run_a_user` prompt builder of chained_net_call.py. -/
def _build_run_a_user (code focus_call : String) (anchor : Int)
    (anchor_content chain : String) : String :=
  "FOCUS_CALL_RESULT: " ++ focus_call ++ "\nANCHOR_LINE: " ++ toString anchor ++
  "\nANCHOR_LINE_CONTENT: " ++ anchor_content ++ "\nANALYTICAL_CHAIN: " ++ chain ++
  "\n\nCODE:\n" ++ code ++ "\n\n" ++ _RUNA_FEWSHOTS ++
  "\nReturn ONLY \x7b\"children\":[EC,...]\x7d."

/-- The `_EXPLAIN_LINES_SYSTEM` prompt constant of chained_net_call.py. -/
def _EXPLAIN_LINES_SYSTEM : String :=
  "Convert Java to concise NL, one sentence per line (1-based), showing chained calls step-by-step.\nReturn STRICT JSON: \x7b\"lines\":[\x7b\"line\":int,\"text\":str\x7d,...]\x7d."

/-- The `_RUNB_SYSTEM` prompt constant of chained_net_call.py. -/
def _RUNB_SYSTEM : String :=
  "Using NL lines, extract immediate NEXT CHAINED CALLS per same rules. Strict JSON: \x7b\"children\":[EC,...]\x7d."

/-- The `_build_run_b_user` prompt builder of chained_net_call.py. -/
def _build_run_b_user (explained_json focus_call : String) (anchor : Int)
    (anchor_content chain : String) : String :=
  "FOCUS_CALL_RESULT: " ++ focus_call ++ "\nANCHOR_LINE: " ++ toString anchor ++
  "\nANCHOR_LINE_CONTENT: " ++ anchor_content ++ "\nANALYTICAL_CHAIN: " ++ chain ++
  "\n\nLINES_NL:\n" ++ explained_json ++ "\nReturn ONLY the JSON object."

/-- Model of `extract_chained_next_call` of chained_net_call.py: run A on
the raw code, the explain-lines pass, run B on the paraphrase, then merge by
name.  Any raise (a doubly-failed parse, or a normalization error)
propagates as `Except.error`.  The invocation counter starts at `n`. -/
def extract_chained_next_call (llm : LlmOracle) (n : Nat) (request : CNCInput) :
    Except PyErr (List EC) :=
  let focus := request.object_name
  let code := request.java_code
  let anchor := request.java_code_line
  let anchor_content := request.java_code_line_content
  let chain := request.analytical_chain
  match _invoke_json llm n _RUNA_SYSTEM
      (_build_run_a_user code focus anchor anchor_content chain) with
  | (Except.error e, _) => Except.error e
  | (Except.ok out_a, n1) =>
    match pyTopGet out_a "children" (JTopField.tobjs []) with
    | Except.error e => Except.error e
    | Except.ok childrenA =>
      match normChildren childrenA with
      | Except.error e => Except.error e
      | Except.ok a =>
        match _invoke_json llm n1 _EXPLAIN_LINES_SYSTEM ("CODE:\n" ++ code) with
        | (Except.error e, _) => Except.error e
        | (Except.ok explained, n2) =>
          match pyTopGet explained "lines" (JTopField.tobjs []) with
          | Except.error e => Except.error e
          | Except.ok linesV =>
            let explained_json := pyDumpsTopField linesV
            match _invoke_json llm n2 _RUNB_SYSTEM
                (_build_run_b_user explained_json focus anchor anchor_content chain) with
            | (Except.error e, _) => Except.error e
            | (Except.ok out_b, _) =>
              match pyTopGet out_b "children" (JTopField.tobjs []) with
              | Except.error e => Except.error e
              | Except.ok childrenB =>
                match normChildren childrenB with
                | Except.error e => Except.error e
                | Except.ok b => Except.ok (_merge_by_name a b)

end CNC

/-- Model of the denylist defaulting idiom `denylist or DEFAULT_DENYLIST`:
`None` and the empty list both fall back to the default; a non-empty list is
taken as given. -/
def pyOrList (x : Option (List String)) (dflt : List String) : List String :=
  match x with
  | none => dflt
  | some l => if l.isEmpty then dflt else l

namespace NL

/-- newlambda.py declares the same EC TypedDict as chained_net_call.py. -/
abbrev EC := CNC.EC

/-- newlambda.py's LInput has the same fields as CNCInput. -/
abbrev LInput := CNC.CNCInput

/-- The `DEFAULT_DENYLIST` constant of newlambda.py. -/
def DEFAULT_DENYLIST : List String :=
  ["System.out.println", "logger.info", "logger.debug", "logger.trace",
   "Objects.requireNonNull", "Collections.emptyList"]

/-- The retry reminder appended by `_invoke_json` of newlambda.py (this file
uses double quotes inside the reminder). -/
def jsonRetryReminder : String :=
  "\n\nREMINDER: Return ONLY a valid JSON object. If nothing, return \x7b\"children\": []\x7d."

/-- Model of `_invoke_json` of newlambda.py (same single-retry policy as
chained_net_call.py, with this file's reminder text). -/
def _invoke_json (llm : LlmOracle) (n : Nat) (system user : String)
    (retry : Bool := true) : Except PyErr JTop × Nat :=
  match llm.resp n system user with
  | some v => (Except.ok v, n + 1)
  | none =>
    if retry then
      match llm.resp (n + 1) system (user ++ jsonRetryReminder) with
      | some v => (Except.ok v, n + 2)
      | none => (Except.error PyErr.parseFailure, n + 2)
    else (Except.error PyErr.parseFailure, n + 1)

/-- Normalization of one raw item in newlambda.py's `_norm_ec_list` (the
confidence is stored unclamped by the dict literal; clamping happens after
the name check). -/
def _norm_one (it : JObj) : Except PyErr EC :=
  match pyFloatField (pyObjGet it "confidence" (JField.fatom (JAtom.jfloat 0))) with
  | none => Except.error PyErr.valueError
  | some q =>
    match pyGuardList (pyObjGet it "guards" (JField.farr [])) with
    | Except.error e => Except.error e
    | Except.ok gs =>
      Except.ok
        { name := CNC.strField it "name"
          code_snippet := CNC.strField it "code_snippet"
          code_block := CNC.strField it "code_block"
          further_expand := CNC.boolField it "further_expand"
          confidence := q
          conditioned := CNC.boolField it "conditioned"
          guards := gs }

/-- Model of `_norm_ec_list` of newlambda.py (and, token for token, of
local_variable_declaration.py): kept records are clamped to [0, 1] after the
non-empty-name check. -/
def _norm_ec_list : List JObj → Except PyErr (List EC)
  | [] => Except.ok []
  | it :: rest =>
    match _norm_one it with
    | Except.error e => Except.error e
    | Except.ok ec =>
      match _norm_ec_list rest with
      | Except.error e => Except.error e
      | Except.ok out =>
        Except.ok (if ec.name ≠ "" then
          { ec with confidence := pyMaxQ 0 (pyMinQ 1 ec.confidence) } :: out
        else out)

/-- Model of `_norm_ec_list` applied to a `children` value. -/
def normChildren (v : JTopField) : Except PyErr (List EC) :=
  match pyIterObjs v with
  | Except.error e => Except.error e
  | Except.ok items => _norm_ec_list items

/-- The per-field update of `_merge_by_name_keep_best` of newlambda.py
(confidence is compared with an explicit strict test there). -/
def keepBestUpd (cur it : EC) : EC :=
  { cur with
    code_block :=
      if it.code_block ≠ "" ∧ (cur.code_block = "" ∨ it.code_block.length < cur.code_block.length)
      then it.code_block else cur.code_block
    code_snippet :=
      if it.code_snippet ≠ "" ∧ (cur.code_snippet = "" ∨ it.code_snippet.length < cur.code_snippet.length)
      then it.code_snippet else cur.code_snippet
    confidence := if cur.confidence < it.confidence then it.confidence else cur.confidence
    conditioned := cur.conditioned || it.conditioned
    guards := pyFromKeys (cur.guards ++ it.guards)
    further_expand := cur.further_expand || it.further_expand }

/-- Model of `_merge_by_name_keep_best` of newlambda.py. -/
def _merge_by_name_keep_best (a b : List EC) : List EC :=
  let d := MergeCore.pushAll (fun ec => ec.name) keepBestUpd
    (MergeCore.pushAll (fun ec => ec.name) keepBestUpd [] a) b
  (sortStable strLtB (d.map (fun ec => ec.name))).map
    (fun k => (MergeCore.entry? (fun ec => ec.name) d k).getD default)

/-- The `_SYSTEM` prompt constant of newlambda.py. -/
def _SYSTEM : String :=
  "You extract OBJECT IDENTIFIERS associated with LAMBDAS that are DIRECTLY RELATED to the FOCUS.\n\nDETERMINING \"DIRECTLY RELATED\":\n• Focus=METHOD: consider lambdas passed/captured within that method body (exclude nested lambdas\x27 inner bodies unrelated to the lambda itself).\n• Focus=OBJECT VAR X: consider lambdas that are:\n   - arguments to calls where receiver == X or chained from X (e.g., X.stream().map(...)),\n   - or assigned into fields/locals that are fed directly by X\x27s chain on that same statement.\n• Focus=CALL-RESULT: consider lambdas applied to that call result in the same statement/expression chain.\n\nFOR EACH SUCH LAMBDA, RETURN CHILDREN = OBJECT IDENTIFIERS MENTIONED BY THE LAMBDA:\n• BEFORE \x27->\x27  (parameters): list each parameter identifier: e.g., x, (k, v).\n• AFTER  \x27->\x27  (body): list identifiers used as:\n   - receivers of calls:  a.b()  → include \x27a\x27\n   - arguments of calls:  call(a, x, y) → include \x27a\x27,\x27x\x27,\x27y\x27\n   - field owners:        a.f, a.f=g, g=a.f  → include \x27a\x27\n   - captured vars:       any non-parameter identifier referenced in the body (e.g., service, this, user)\n• METHOD REFERENCES:\n   - obj::meth → include \x27obj\x27\n   - this::meth → include \x27this\x27\n   - Class::meth / Foo::new (no object identifier) → ignore\n\nDO NOT RETURN:\n• Class/type names standing alone (Foo, Bar) unless they are variables.\n• Pure \x27new\x27 temporaries without an identifier (e.g., call(new Foo())).\n• String/number literals, operators, keywords.\n\nOUTPUT EC (STRICT JSON):\n\x7b\"children\":[\n  \x7b\"name\":\"<identifier>\", \"code_snippet\":\"<ENTIRE source line containing the lambda or method-ref>\",\n   \"code_block\":\"<smallest block snippet that shows the focus call + lambda>\",\n   \"further_expand\": false, \"confidence\": 0.0-1.0, \"conditioned\": false, \"guards\":[]\x7d\n]\x7d"

/-- The `_FEWSHOTS` prompt constant of newlambda.py. -/
def _FEWSHOTS : String :=
  "Examples:\n\n1) Focus = METHOD \x27m\x27\nvoid m()\x7b items.forEach(x -> x.trim()); helper.apply(u -> service.use(u)); \x7d\n→ for \x27items.forEach(...)\x27 lambda:  [\x27x\x27] (param), and body uses: \x27x\x27\n→ for \x27helper.apply(...)\x27 lambda:  [\x27u\x27] (param), plus \x27service\x27 (captured in body), \x27u\x27 (used as arg)\n\n2) Focus = OBJECT VAR \x27stream\x27\nvoid m()\x7b stream.map(s -> s.toUpperCase()).filter(s -> pred.test(s)).forEach(t -> logger.info(t)); \x7d\nFocus: stream\n→ lambdas directly tied to \x27stream\x27 chain → parameters \x27s\x27,\x27t\x27 and body objects: \x27s\x27,\x27pred\x27,\x27t\x27 (ignore \x27logger\x27 if denylisted)\n\n3) Method references\nlist.forEach(this::tick);\n→ child: \x27this\x27\nmapper.computeIfAbsent(k, v -> build(k, v));\n→ children: \x27k\x27,\x27v\x27,\x27mapper\x27 (receiver in body? if body is \x27build(k,v)\x27 → add k,v; \x27mapper\x27 isn\x27t inside body here, so not added for this lambda)\n\n4) Captured vars\nprocessor.run(x -> handler.handle(x, ctx));\n→ children: \x27x\x27 (param), \x27handler\x27,\x27x\x27,\x27ctx\x27 (body)"

/-- The `_build_user` prompt builder of newlambda.py. -/
def _build_user (code focus : String) (anchor : Int) (anchor_content chain : String)
    (deny : List String) : String :=
  "FOCUS_NAME: " ++ focus ++ "\nANCHOR_LINE (1-based): " ++ toString anchor ++
  "\nANCHOR_LINE_CONTENT: " ++ anchor_content ++ "\nANALYTICAL_CHAIN (≤2): " ++ chain ++
  "\nDENYLIST: " ++ pyReprStrList deny ++ "\n\nCODE:\n" ++ code ++ "\n\n" ++
  _FEWSHOTS ++ "\nReturn ONLY the JSON object."

/-- Model of `extract_lambda_children` of newlambda.py: one extraction call,
normalization, then a self-merge by name to dedupe.  The denylist defaults
through `denylist or DEFAULT_DENYLIST`. -/
def extract_lambda_children (llm : LlmOracle) (n : Nat) (request : LInput)
    (denylist : Option (List String) := none) : Except PyErr (List EC) :=
  let focus := request.object_name
  let code := request.java_code
  let anchor := request.java_code_line
  let anchor_content := request.java_code_line_content
  let chain := request.analytical_chain
  let deny := pyOrList denylist DEFAULT_DENYLIST
  match _invoke_json llm n _SYSTEM
      (_build_user code focus anchor anchor_content chain deny) with
  | (Except.error e, _) => Except.error e
  | (Except.ok out, _) =>
    match pyTopGet out "children" (JTopField.tobjs []) with
    | Except.error e => Except.error e
    | Except.ok ch =>
      match normChildren ch with
      | Except.error e => Except.error e
      | Except.ok children => Except.ok (_merge_by_name_keep_best children [])

end NL

namespace LVD

/-- local_variable_declaration.py declares the same EC TypedDict again. -/
abbrev EC := CNC.EC

/-- The LVInput request shape (same fields as CNCInput). -/
abbrev LVInput := CNC.CNCInput

/-- The `DEFAULT_DENYLIST` constant of local_variable_declaration.py. -/
def DEFAULT_DENYLIST : List String :=
  ["System.out.println", "logger.info", "logger.debug", "logger.trace",
   "Objects.requireNonNull", "Collections.emptyList"]

/-- The retry reminder of local_variable_declaration.py (single quotes, the
same text as chained_net_call.py). -/
def jsonRetryReminder : String := CNC.jsonRetryReminder

/-- Model of `_invoke_json` of local_variable_declaration.py. -/
def _invoke_json (llm : LlmOracle) (n : Nat) (system user : String)
    (retry : Bool := true) : Except PyErr JTop × Nat :=
  match llm.resp n system user with
  | some v => (Except.ok v, n + 1)
  | none =>
    if retry then
      match llm.resp (n + 1) system (user ++ jsonRetryReminder) with
      | some v => (Except.ok v, n + 2)
      | none => (Except.error PyErr.parseFailure, n + 2)
    else (Except.error PyErr.parseFailure, n + 1)

/-- local_variable_declaration.py's `_norm_ec_list` is token for token the
normalization of newlambda.py (clamp after the name check). -/
abbrev _norm_ec_list := NL._norm_ec_list

/-- Model of `_norm_ec_list` applied to a `children` value. -/
abbrev normChildren := NL.normChildren

/-- local_variable_declaration.py's `_merge_by_name` is a verbatim copy of
the one in chained_net_call.py. -/
abbrev _merge_by_name := CNC._merge_by_name

/-- The `_RUNA_SYSTEM` prompt constant of local_variable_declaration.py. -/
def _RUNA_SYSTEM : String :=
  "Task: Extract LOCAL VARIABLE DECLARATIONS directly related to the focus.\nReturn STRICT JSON. Prefer empty results over guesses.\n\nRules:\n• Focus=METHOD: include locals declared in the method body (not fields); exclude lambda/anon-class internals.\n• Focus=OBJECT VAR X: include locals that are directly assigned from X or produce aliases of X (e.g., R r = X.a(); var t = X;).\n• Focus=CALL_RESULT: include locals that capture that call result in the same statement.\n• Exclude fields, parameters, and denylisted utilities. Prefer nearest to ANCHOR_LINE within same method/initializer.\n\nEmit EC per local:\n\x7b\"name\":\"<localVar>\", \"code_snippet\":\"<ENTIRE declaration line>\", \"code_block\":\"<smallest block showing relation>\",\n \"further_expand\":false, \"confidence\":0..1, \"conditioned\":false, \"guards\":[]\x7d"

/-- The `_RUNA_FEWSHOTS` prompt constant of local_variable_declaration.py. -/
def _RUNA_FEWSHOTS : String :=
  "Examples:\n1) METHOD focus\nvoid m()\x7b int k=0; Foo f = make(); \x7d\n→ children: [\x27k\x27,\x27f\x27]\n\n2) OBJECT focus x\nvoid m()\x7b R r = x.a(); var t = x; \x7d\n→ children: [\x27r\x27,\x27t\x27]\n\n3) CALL_RESULT focus \x27a\x27\nvoid m()\x7b R r = x.a(); \x7d\n→ children: [\x27r\x27]\n\n4) Exclude field vs local\nint g=0; void m()\x7b int k=1; \x7d\n→ only \x27k\x27 for focus=m"

/-- The `_EXPLAIN_LINES_SYSTEM` prompt constant of
local_variable_declaration.py. -/
def _EXPLAIN_LINES_SYSTEM : String :=
  "Convert Java to concise, factual NL, one sentence per line (1-based). Preserve identifiers and declarations.\nReturn STRICT JSON: \x7b\"lines\":[\x7b\"line\":int,\"text\":str\x7d,...]\x7d."

/-- The `_RUNB_SYSTEM` prompt constant of local_variable_declaration.py. -/
def _RUNB_SYSTEM : String :=
  "Using the NL lines, extract LOCAL VARIABLE DECLARATIONS per the same rules. Return STRICT JSON: \x7b\"children\":[EC,...]\x7d."

/-- The `_build_run_a_user` prompt builder of local_variable_declaration.py. -/
def _build_run_a_user (code focus : String) (anchor : Int)
    (anchor_content chain : String) (deny : List String) : String :=
  "FOCUS_NAME: " ++ focus ++ "\nANCHOR_LINE: " ++ toString anchor ++
  "\nANCHOR_LINE_CONTENT: " ++ anchor_content ++ "\nANALYTICAL_CHAIN: " ++ chain ++
  "\nDENYLIST: " ++ pyReprStrList deny ++ "\n\nCODE:\n" ++ code ++ "\n\n" ++
  _RUNA_FEWSHOTS ++ "\nOutput JSON: \x7b\"children\":[EC,...]\x7d ONLY."

/-- The `_build_run_b_user` prompt builder of local_variable_declaration.py. -/
def _build_run_b_user (explained_json focus : String) (anchor : Int)
    (anchor_content chain : String) (deny : List String) : String :=
  "FOCUS_NAME: " ++ focus ++ "\nANCHOR_LINE: " ++ toString anchor ++
  "\nANCHOR_LINE_CONTENT: " ++ anchor_content ++ "\nANALYTICAL_CHAIN: " ++ chain ++
  "\nDENYLIST: " ++ pyReprStrList deny ++ "\n\nLINES_NL:\n" ++ explained_json ++
  "\nReturn ONLY the JSON object."

/-- Model of `extract_local_variable_declarations` of
local_variable_declaration.py: run A, the explain-lines pass, run B, then
merge by name; the denylist defaults through `denylist or DEFAULT_DENYLIST`. -/
def extract_local_variable_declarations (llm : LlmOracle) (n : Nat)
    (request : LVInput) (denylist : Option (List String) := none) :
    Except PyErr (List EC) :=
  let focus := request.object_name
  let code := request.java_code
  let anchor := request.java_code_line
  let anchor_content := request.java_code_line_content
  let chain := request.analytical_chain
  let deny := pyOrList denylist DEFAULT_DENYLIST
  match _invoke_json llm n _RUNA_SYSTEM
      (_build_run_a_user code focus anchor anchor_content chain deny) with
  | (Except.error e, _) => Except.error e
  | (Except.ok out_a, n1) =>
    match pyTopGet out_a "children" (JTopField.tobjs []) with
    | Except.error e => Except.error e
    | Except.ok childrenA =>
      match normChildren childrenA with
      | Except.error e => Except.error e
      | Except.ok a =>
        match _invoke_json llm n1 _EXPLAIN_LINES_SYSTEM ("CODE:\n" ++ code) with
        | (Except.error e, _) => Except.error e
        | (Except.ok explained, n2) =>
          match pyTopGet explained "lines" (JTopField.tobjs []) with
          | Except.error e => Except.error e
          | Except.ok linesV =>
            let explained_json := pyDumpsTopField linesV
            match _invoke_json llm n2 _RUNB_SYSTEM
                (_build_run_b_user explained_json focus anchor anchor_content chain deny) with
            | (Except.error e, _) => Except.error e
            | (Except.ok out_b, _) =>
              match pyTopGet out_b "children" (JTopField.tobjs []) with
              | Except.error e => Except.error e
              | Except.ok childrenB =>
                match normChildren childrenB with
                | Except.error e => Except.error e
                | Except.ok b => Except.ok (_merge_by_name a b)

end LVD

/-- Python tuple comparison on a pair: first components decide unless equal. -/
def lexPairLt [DecidableEq α] (ltA : α → α → Bool) (ltB : β → β → Bool)
    (x y : α × β) : Bool :=
  ltA x.1 y.1 || (decide (x.1 = y.1) && ltB x.2 y.2)

/-- Model of Python `<` on two ints. -/
def intLtB (a b : Int) : Bool := decide (a < b)

/-- Python comparison of `(code_snippet, variant, name)` sort keys. -/
def tripLtB : (String × Int × String) → (String × Int × String) → Bool :=
  lexPairLt strLtB (lexPairLt intLtB strLtB)

namespace Corr

/-- The EC candidate record of the object-instantiation sections of
Correction.py: the shared shape extended by `comment` and `variant`. -/
structure EC where
  name : String
  code_snippet : String
  code_block : String
  further_expand : Bool
  confidence : ℚ
  conditioned : Bool
  guards : List JAtom
  comment : String
  variant : Int
  deriving DecidableEq, Repr, Inhabited

/-- Model of `_merge_key` of Correction.py: the composite merge key
`(name, code_snippet, comment)` preserving same-name variants. -/
def _merge_key (ec : EC) : String × String × String :=
  (ec.name, ec.code_snippet, ec.comment)

/-- The per-field tie-break update of `_merge_ecs` of Correction.py:
shortest non-empty block and snippet, strictly-higher confidence wins, OR of
flags, guard union, smaller variant wins. -/
def mergeUpd (cur it : EC) : EC :=
  { cur with
    code_block :=
      if it.code_block ≠ "" ∧ (cur.code_block = "" ∨ it.code_block.length < cur.code_block.length)
      then it.code_block else cur.code_block
    code_snippet :=
      if it.code_snippet ≠ "" ∧ (cur.code_snippet = "" ∨ it.code_snippet.length < cur.code_snippet.length)
      then it.code_snippet else cur.code_snippet
    confidence := if cur.confidence < it.confidence then it.confidence else cur.confidence
    conditioned := cur.conditioned || it.conditioned
    further_expand := cur.further_expand || it.further_expand
    guards := pyFromKeys (cur.guards ++ it.guards)
    variant := if it.variant < cur.variant then it.variant else cur.variant }

/-- The documented deterministic sort key of the composite merges:
`(code_snippet, variant, name)`. -/
def sortKey (ec : EC) : String × Int × String := (ec.code_snippet, ec.variant, ec.name)

/-- Comparison of records by their sort keys (ties possible: records with
distinct merge keys can share a sort key). -/
def ecLtB (x y : EC) : Bool := tripLtB (sortKey x) (sortKey y)

/-- Model of `_merge_ecs` of Correction.py: push both lists into a dict
keyed by the composite key, then `sorted(by.values(), key=(code_snippet,
variant, name))` — a stable sort over the dict's insertion order. -/
def _merge_ecs (a b : List EC) : List EC :=
  let d := MergeCore.pushAll _merge_key mergeUpd
    (MergeCore.pushAll _merge_key mergeUpd [] a) b
  sortStable ecLtB d

/-- Model of `_merge_key_with_comment` of Correction.py (same key tuple as
`_merge_key`). -/
def _merge_key_with_comment (ec : EC) : String × String × String :=
  (ec.name, ec.code_snippet, ec.comment)

/-- The per-field update of `_merge_ec_lists` of Correction.py: as
`_merge_ecs` but without the `code_snippet` tie-break. -/
def mergeUpdKeepSnippet (cur it : EC) : EC :=
  { cur with
    code_block :=
      if it.code_block ≠ "" ∧ (cur.code_block = "" ∨ it.code_block.length < cur.code_block.length)
      then it.code_block else cur.code_block
    confidence := if cur.confidence < it.confidence then it.confidence else cur.confidence
    guards := pyFromKeys (cur.guards ++ it.guards)
    conditioned := cur.conditioned || it.conditioned
    further_expand := cur.further_expand || it.further_expand
    variant := if it.variant < cur.variant then it.variant else cur.variant }

/-- Model of `_merge_ec_lists` of Correction.py. -/
def _merge_ec_lists (a b : List EC) : List EC :=
  let d := MergeCore.pushAll _merge_key_with_comment mergeUpdKeepSnippet
    (MergeCore.pushAll _merge_key_with_comment mergeUpdKeepSnippet [] a) b
  sortStable ecLtB d

end Corr

namespace TPy

/-- The MCItem structured-output record of T.py (the pydantic model; its
validator clips confidence on construction, which does not affect the merge
rules below). -/
structure MCItem where
  child_name : String
  code_snippet : String
  code_block : String
  conditioned : Bool
  guards : List String
  confidence : ℚ
  comment : Option String
  deriving DecidableEq, Repr, Inhabited

/-- The ChildRecord TypedDict of T.py. -/
structure ChildRecord where
  child_name : String
  child_type : String
  code_snippet : String
  code_block : String
  further_expand : Bool
  found_in : String
  deriving DecidableEq, Repr, Inhabited

/-- The ChildRecord built from one MCItem inside `_add_from` of T.py. -/
def childOf (source : String) (name : String) (it : MCItem) : ChildRecord :=
  { child_name := name
    child_type := ""
    code_snippet := pyStrip it.code_snippet
    code_block := pyStrip it.code_block
    further_expand := false
    found_in := source }

/-- The update applied by `_add_from` of T.py when a name is already merged:
`found_in` becomes "both" when the sources differ, and the strictly shorter
`code_block`/`code_snippet` wins — with no non-empty guard, so an empty
incoming string (length 0) replaces any non-empty current one. -/
def addUpd (source : String) (cur child : ChildRecord) : ChildRecord :=
  { cur with
    found_in := if cur.found_in ≠ source then "both" else cur.found_in
    code_block :=
      if child.code_block.length < cur.code_block.length
      then child.code_block else cur.code_block
    code_snippet :=
      if child.code_snippet.length < cur.code_snippet.length
      then child.code_snippet else cur.code_snippet }

/-- Model of `_add_from` of T.py: fold the items into the merged dict,
skipping empty stripped names. -/
def _add_from (source : String) (items : List MCItem)
    (merged : List ChildRecord) : List ChildRecord :=
  items.foldl
    (fun m it =>
      let name := pyStrip it.child_name
      if name = "" then m
      else MergeCore.pushRec (fun r => r.child_name) (addUpd source) m
        (childOf source name it))
    merged

/-- The tail of `extract_method_calls` of T.py: run A then run B feed
`_add_from`, and the result is emitted sorted by name. -/
def mergeRuns (out_a out_b : List MCItem) : List ChildRecord :=
  let m := _add_from "processed" out_b (_add_from "original" out_a [])
  (sortStable strLtB (m.map (fun r => r.child_name))).map
    (fun k => (MergeCore.entry? (fun r => r.child_name) m k).getD default)

end TPy

namespace CNC

/-- The run-A user prompt of a request. -/
def runAUser (req : CNCInput) : String :=
  _build_run_a_user req.java_code req.object_name req.java_code_line
    req.java_code_line_content req.analytical_chain

/-- The explain-lines user prompt of a request. -/
def explainUser (req : CNCInput) : String := "CODE:\n" ++ req.java_code

/-- The run-B user prompt of a request, given the serialized paraphrase. -/
def runBUser (req : CNCInput) (explained_json : String) : String :=
  _build_run_b_user explained_json req.object_name req.java_code_line
    req.java_code_line_content req.analytical_chain

end CNC

/- ────────────────────────────────────────────────────────────────────────
   Concrete records and oracles used by the claim checks
   ──────────────────────────────────────────────────────────────────────── -/

/-- Record "n" carrying guard "a" (all other fields neutral). -/
def ecGA : CNC.EC := ⟨"n", "", "", false, 0, false, [JAtom.jstr "a"]⟩

/-- Record "n" carrying guard "b". -/
def ecGB : CNC.EC := ⟨"n", "", "", false, 0, false, [JAtom.jstr "b"]⟩

/-- A normalized record whose guards list has an internal duplicate
(normalization does not deduplicate guards). -/
def ecDupGuards : CNC.EC := ⟨"n", "", "", false, 0, false, [JAtom.jstr "a", JAtom.jstr "a"]⟩

/-- Record "b" used by the idempotence witness. -/
def ecB7 : CNC.EC := ⟨"b", "s", "t", false, 1, true, [JAtom.jstr "g"]⟩

/-- Record "a" used by the idempotence witness. -/
def ecA7 : CNC.EC := ⟨"a", "u", "v", true, 0, false, []⟩

/-- Record "m" with guards ["a", "b"]. -/
def ecG1 : CNC.EC := ⟨"m", "", "", false, 0, false, [JAtom.jstr "a", JAtom.jstr "b"]⟩

/-- Record "m" with guards ["b", "c"]. -/
def ecG2 : CNC.EC := ⟨"m", "", "", false, 0, false, [JAtom.jstr "b", JAtom.jstr "c"]⟩

/-- Composite-key candidate: variable `a` tagged "instantiated variable". -/
def ceInst : Corr.EC :=
  ⟨"a", "Foo a = make();", "", false, 1, false, [], "instantiated variable", 0⟩

/-- The same name, line and variant with the source-variable comment. -/
def ceSrc : Corr.EC :=
  ⟨"a", "Foo a = make();", "", false, 1, false, [], "source variable for \x27b\x27", 0⟩

/-- The name-only projection of the two composite candidates above. -/
def seInst : CNC.EC := ⟨"a", "Foo a = make();", "", false, 1, false, []⟩

/-- method-call item "x" with non-empty snippet and block. -/
def mcLong : TPy.MCItem := ⟨"x", "ab", "ab", false, [], 1, none⟩

/-- method-call item "x" whose snippet and block are empty strings. -/
def mcEmpty : TPy.MCItem := ⟨"x", "", "", false, [], 1, none⟩

/-- Oracle whose responses never parse. -/
def failLlm : LlmOracle := ⟨fun _ _ _ => none⟩

/-- Oracle parsing only the first invocation (invocation 0). -/
def okFirstLlm : LlmOracle := ⟨fun n _ _ => if n = 0 then some (JTop.tobj []) else none⟩

/-- Oracle parsing only the first two invocations. -/
def okTwoLlm : LlmOracle := ⟨fun n _ _ => if n ≤ 1 then some (JTop.tobj []) else none⟩

/-- A concrete extraction request. -/
def reqC : CNC.CNCInput := ⟨"f", "x.f().g();", 1, "x.f().g();", ""⟩

/-- Oracle parsing only the second invocation (a successful single retry). -/
def retryLlm : LlmOracle := ⟨fun n _ _ => if n = 1 then some (JTop.tobj []) else none⟩

/-- A raw item whose confidence value (null) cannot be coerced to float. -/
def badConfItem : JObj :=
  [("name", JField.fatom (JAtom.jstr "x")), ("confidence", JField.fatom JAtom.jnull)]

/-- A raw item with a well-formed name and no other fields. -/
def okItem : JObj := [("name", JField.fatom (JAtom.jstr "x"))]

/-- A raw item whose name strips to the empty string. -/
def emptyNameItem : JObj :=
  [("name", JField.fatom (JAtom.jstr " ")), ("confidence", JField.fatom (JAtom.jfloat 1))]

/- ────────────────────────────────────────────────────────────────────────
   Theorems
   ──────────────────────────────────────────────────────────────────────── -/

theorem char_eq_of_toNat_eq {c d : Char} (h : c.toNat = d.toNat) : c = d := by
  cases c with
  | mk cv cok =>
    cases d with
    | mk dv dok =>
      simp only [Char.toNat] at h
      congr 1
      exact UInt32.ext h

theorem lexLtB_asymm : ∀ a b : List Char, lexLtB a b = true → lexLtB b a = false := by
  intro a
  induction a with
  | nil => intro b _; cases b <;> simp [lexLtB]
  | cons c cs ih =>
    intro b h
    cases b with
    | nil => simp [lexLtB] at h
    | cons d ds =>
      simp only [lexLtB, charLtB, Bool.or_eq_true, Bool.and_eq_true, decide_eq_true_eq] at h
      simp only [lexLtB, charLtB, Bool.or_eq_false_iff, Bool.and_eq_false_iff,
        decide_eq_false_iff_not, not_lt]
      rcases h with h | ⟨hEq, hRec⟩
      · exact ⟨by omega, Or.inl (by omega)⟩
      · exact ⟨by omega, Or.inr (ih ds hRec)⟩

theorem lexLtB_le_trans :
    ∀ a b c : List Char, lexLtB b a = false → lexLtB c b = false → lexLtB c a = false := by
  intro a
  induction a with
  | nil => intro b c _ _; cases c <;> simp [lexLtB]
  | cons x xs ih =>
    intro b c hba hcb
    cases b with
    | nil => simp [lexLtB] at hba
    | cons y ys =>
      cases c with
      | nil => simp [lexLtB] at hcb
      | cons z zs =>
        simp only [lexLtB, charLtB, Bool.or_eq_false_iff, Bool.and_eq_false_iff,
          decide_eq_false_iff_not, not_lt] at hba hcb ⊢
        obtain ⟨hba1, hba2⟩ := hba
        obtain ⟨hcb1, hcb2⟩ := hcb
        refine ⟨by omega, ?_⟩
        rcases hba2 with hba2 | hba2
        · left; omega
        · rcases hcb2 with hcb2 | hcb2
          · left; omega
          · right; exact ih ys zs hba2 hcb2

theorem lexLtB_antisym :
    ∀ a b : List Char, lexLtB a b = false → lexLtB b a = false → a = b := by
  intro a
  induction a with
  | nil =>
    intro b hab _
    cases b with
    | nil => rfl
    | cons _ _ => simp [lexLtB] at hab
  | cons x xs ih =>
    intro b hab hba
    cases b with
    | nil => simp [lexLtB] at hba
    | cons y ys =>
      simp only [lexLtB, charLtB, Bool.or_eq_false_iff, Bool.and_eq_false_iff,
        decide_eq_false_iff_not, not_lt] at hab hba
      obtain ⟨hab1, hab2⟩ := hab
      obtain ⟨hba1, hba2⟩ := hba
      have hxy : x = y := char_eq_of_toNat_eq (by omega)
      subst hxy
      rcases hab2 with hab2 | hab2
      · omega
      · rcases hba2 with hba2 | hba2
        · omega
        · rw [ih ys hab2 hba2]

theorem strLtB_asymm (a b : String) (h : strLtB a b = true) : strLtB b a = false :=
  lexLtB_asymm a.data b.data h

theorem strLtB_le_trans {a b c : String} (hba : strLtB b a = false)
    (hcb : strLtB c b = false) : strLtB c a = false :=
  lexLtB_le_trans a.data b.data c.data hba hcb

theorem strLtB_antisym {a b : String} (hab : strLtB a b = false)
    (hba : strLtB b a = false) : a = b := by
  cases a with
  | mk la =>
    cases b with
    | mk lb =>
      have := lexLtB_antisym la lb hab hba
      simp_all

theorem insertStable_perm (lt : α → α → Bool) (x : α) :
    ∀ l : List α, (insertStable lt x l).Perm (x :: l) := by
  intro l
  induction l with
  | nil => simp [insertStable]
  | cons y ys ih =>
    simp only [insertStable]
    split
    · exact ((ih.cons y).trans (List.Perm.swap x y ys))
    · exact List.Perm.refl _

theorem sortStable_perm (lt : α → α → Bool) :
    ∀ l : List α, (sortStable lt l).Perm l := by
  intro l
  induction l with
  | nil => simp [sortStable]
  | cons x xs ih =>
    simp only [sortStable, List.foldr_cons]
    exact (insertStable_perm lt x _).trans (ih.cons x)

theorem mem_sortStable (lt : α → α → Bool) (l : List α) (a : α) :
    a ∈ sortStable lt l ↔ a ∈ l :=
  (sortStable_perm lt l).mem_iff

theorem mem_insertStable (lt : α → α → Bool) (x : α) (l : List α) (a : α) :
    a ∈ insertStable lt x l ↔ a = x ∨ a ∈ l := by
  have := (insertStable_perm lt x l).mem_iff (a := a)
  simpa using this

theorem sortedB_insertStable (lt : α → α → Bool)
    (hasymm : ∀ a b, lt a b = true → lt b a = false)
    (hletrans : ∀ a b c, lt b a = false → lt c b = false → lt c a = false) (x : α) :
    ∀ l : List α, SortedB lt l → SortedB lt (insertStable lt x l) := by
  intro l
  induction l with
  | nil => intro _; simp [insertStable, SortedB]
  | cons y ys ih =>
    intro hs
    rw [SortedB, List.pairwise_cons] at hs
    obtain ⟨hy, hys⟩ := hs
    simp only [insertStable]
    split
    · rename_i hlt
      rw [SortedB, List.pairwise_cons]
      refine ⟨?_, ih hys⟩
      intro z hz
      rcases (mem_insertStable lt x ys z).mp hz with rfl | hz
      · exact hasymm y z hlt
      · exact hy z hz
    · rename_i hlt
      rw [Bool.not_eq_true] at hlt
      rw [SortedB, List.pairwise_cons]
      constructor
      · intro z hz
        rcases hz with _ | hz
        · exact hlt
        · exact hletrans x y z hlt (hy z (by assumption))
      · exact List.Pairwise.cons hy hys

theorem sortedB_sortStable (lt : α → α → Bool)
    (hasymm : ∀ a b, lt a b = true → lt b a = false)
    (hletrans : ∀ a b c, lt b a = false → lt c b = false → lt c a = false)
    (l : List α) : SortedB lt (sortStable lt l) := by
  induction l with
  | nil => simp [sortStable, SortedB]
  | cons x xs ih =>
    simp only [sortStable, List.foldr_cons]
    exact sortedB_insertStable lt hasymm hletrans x _ ih

theorem sortedB_eq_of_perm (lt : α → α → Bool)
    (hantisym : ∀ a b, lt a b = false → lt b a = false → a = b)
    {l₁ l₂ : List α} (hp : l₁.Perm l₂)
    (h₁ : SortedB lt l₁) (h₂ : SortedB lt l₂) : l₁ = l₂ := by
  haveI : IsAntisymm α (fun a b => lt b a = false) :=
    ⟨fun a b hab hba => hantisym a b hba hab⟩
  exact List.eq_of_perm_of_sorted hp h₁ h₂

/-- Two duplicate-free lists with the same members sort to the same list. -/
theorem sortStable_congr (lt : α → α → Bool)
    (hasymm : ∀ a b, lt a b = true → lt b a = false)
    (hletrans : ∀ a b c, lt b a = false → lt c b = false → lt c a = false)
    (hantisym : ∀ a b, lt a b = false → lt b a = false → a = b)
    {l₁ l₂ : List α} (h₁ : l₁.Nodup)
    (h₂ : l₂.Nodup) (hmem : ∀ a, a ∈ l₁ ↔ a ∈ l₂) :
    sortStable lt l₁ = sortStable lt l₂ := by
  have hp : l₁.Perm l₂ := (List.perm_ext_iff_of_nodup h₁ h₂).mpr hmem
  exact sortedB_eq_of_perm lt hantisym
    (((sortStable_perm lt l₁).trans hp).trans (sortStable_perm lt l₂).symm)
    (sortedB_sortStable lt hasymm hletrans l₁) (sortedB_sortStable lt hasymm hletrans l₂)

theorem insertStable_map {β : Type} (ltα : α → α → Bool) (ltβ : β → β → Bool)
    (f : α → β) (hf : ∀ a b, ltα a b = ltβ (f a) (f b)) (x : α) :
    ∀ l : List α, (insertStable ltα x l).map f = insertStable ltβ (f x) (l.map f) := by
  intro l
  induction l with
  | nil => simp [insertStable]
  | cons y ys ih =>
    simp only [insertStable, List.map_cons, hf]
    split
    · simp [List.map_cons, ih]
    · simp [List.map_cons]

theorem sortStable_map {β : Type} (ltα : α → α → Bool) (ltβ : β → β → Bool)
    (f : α → β) (hf : ∀ a b, ltα a b = ltβ (f a) (f b)) :
    ∀ l : List α, (sortStable ltα l).map f = sortStable ltβ (l.map f) := by
  intro l
  induction l with
  | nil => simp [sortStable]
  | cons x xs ih =>
    simp only [sortStable, List.foldr_cons, List.map_cons] at ih ⊢
    rw [insertStable_map ltα ltβ f hf, ih]

namespace MergeCore

variable {σ : Type} {κ : Type} [DecidableEq κ]

theorem mergeFold_append (upd : σ → σ → σ) (o : Option σ) (l₁ l₂ : List σ) :
    mergeFold upd o (l₁ ++ l₂) = mergeFold upd (mergeFold upd o l₁) l₂ :=
  List.foldl_append ..

theorem entry?_pushRec (key : σ → κ) (upd : σ → σ → σ)
    (hk : ∀ c i, key (upd c i) = key c) (d : List σ) (it : σ) (k : κ) :
    entry? key (pushRec key upd d it) k =
      if key it = k then
        (match entry? key d k with
         | none => some it
         | some c => some (upd c it))
      else entry? key d k := by
  induction d with
  | nil =>
    simp only [pushRec, entry?, List.find?]
    by_cases h : key it = k <;> simp [h]
  | cons c rest ih =>
    simp only [pushRec]
    by_cases hc : key c = key it
    · rw [if_pos hc]
      simp only [entry?]
      by_cases hk2 : key c = k
      · have hit : key it = k := hc ▸ hk2
        rw [List.find?_cons_of_pos _ (by simp [hk c it, hk2]), if_pos hit,
          List.find?_cons_of_pos _ (by simp [hk2])]
      · have hit : ¬ key it = k := fun h => hk2 (hc.trans h)
        rw [List.find?_cons_of_neg _ (by simp [hk c it, hk2]), if_neg hit,
          List.find?_cons_of_neg _ (by simp [hk2])]
    · rw [if_neg hc]
      simp only [entry?]
      by_cases hk2 : key c = k
      · have hit : ¬ key it = k := fun h => hc (hk2.trans h.symm)
        rw [List.find?_cons_of_pos (pushRec key upd rest it) (by simp [hk2]), if_neg hit,
          List.find?_cons_of_pos rest (by simp [hk2])]
      · rw [List.find?_cons_of_neg (pushRec key upd rest it) (by simp [hk2])]
        have hrw : List.find? (fun c => decide (key c = k)) (c :: rest) =
            List.find? (fun c => decide (key c = k)) rest :=
          List.find?_cons_of_neg rest (by simp [hk2])
        rw [hrw]
        simpa [entry?] using ih

theorem entry?_pushAll (key : σ → κ) (upd : σ → σ → σ)
    (hk : ∀ c i, key (upd c i) = key c) (l : List σ) :
    ∀ (d : List σ) (k : κ),
      entry? key (pushAll key upd d l) k =
        mergeFold upd (entry? key d k) (l.filter (fun c => decide (key c = k))) := by
  induction l with
  | nil => intro d k; simp [pushAll, mergeFold]
  | cons it l ih =>
    intro d k
    simp only [pushAll, List.foldl_cons]
    rw [show (List.foldl (pushRec key upd) (pushRec key upd d it) l) =
          pushAll key upd (pushRec key upd d it) l from rfl, ih]
    rw [entry?_pushRec key upd hk]
    by_cases h : key it = k
    · rw [if_pos h, List.filter_cons_of_pos (by simp [h])]
      cases entry? key d k <;> simp [mergeFold]
    · rw [if_neg h, List.filter_cons_of_neg (by simp [h])]

theorem keys_pushRec (key : σ → κ) (upd : σ → σ → σ)
    (hk : ∀ c i, key (upd c i) = key c) (d : List σ) (it : σ) :
    keys key (pushRec key upd d it) =
      if key it ∈ keys key d then keys key d else keys key d ++ [key it] := by
  induction d with
  | nil => simp [pushRec, keys]
  | cons c rest ih =>
    simp only [pushRec]
    by_cases hc : key c = key it
    · rw [if_pos hc]
      have hmem : key it ∈ keys key (c :: rest) := by
        simp only [keys, List.map_cons, List.mem_cons]
        exact Or.inl hc.symm
      rw [if_pos hmem]
      simp [keys, hk c it]
    · rw [if_neg hc]
      have hne : ¬ key it = key c := fun h => hc h.symm
      simp only [keys, List.map_cons] at ih ⊢
      rw [ih]
      by_cases hm : key it ∈ List.map key rest
      · rw [if_pos hm, if_pos (by simp [List.mem_cons, hm])]
      · rw [if_neg hm, if_neg (by simp [List.mem_cons, hne, hm])]
        simp

theorem mem_keys_pushRec (key : σ → κ) (upd : σ → σ → σ)
    (hk : ∀ c i, key (upd c i) = key c) (d : List σ) (it : σ) (k : κ) :
    k ∈ keys key (pushRec key upd d it) ↔ k ∈ keys key d ∨ k = key it := by
  rw [keys_pushRec key upd hk]
  by_cases hm : key it ∈ keys key d
  · rw [if_pos hm]
    constructor
    · exact Or.inl
    · rintro (h | rfl)
      · exact h
      · exact hm
  · rw [if_neg hm]
    simp

theorem nodup_keys_pushRec (key : σ → κ) (upd : σ → σ → σ)
    (hk : ∀ c i, key (upd c i) = key c) (d : List σ) (it : σ)
    (h : (keys key d).Nodup) : (keys key (pushRec key upd d it)).Nodup := by
  rw [keys_pushRec key upd hk]
  by_cases hm : key it ∈ keys key d
  · rwa [if_pos hm]
  · rw [if_neg hm]
    simpa [List.nodup_append] using ⟨h, fun h' => hm h'⟩

theorem nodup_keys_pushAll (key : σ → κ) (upd : σ → σ → σ)
    (hk : ∀ c i, key (upd c i) = key c) (l : List σ) :
    ∀ d : List σ, (keys key d).Nodup → (keys key (pushAll key upd d l)).Nodup := by
  induction l with
  | nil => intro d h; simpa [pushAll]
  | cons it l ih =>
    intro d h
    simpa [pushAll] using ih (pushRec key upd d it) (nodup_keys_pushRec key upd hk d it h)

theorem mem_keys_pushAll (key : σ → κ) (upd : σ → σ → σ)
    (hk : ∀ c i, key (upd c i) = key c) (l : List σ) :
    ∀ (d : List σ) (k : κ),
      k ∈ keys key (pushAll key upd d l) ↔ k ∈ keys key d ∨ k ∈ l.map key := by
  induction l with
  | nil => intro d k; simp [pushAll]
  | cons it l ih =>
    intro d k
    simp only [pushAll, List.foldl_cons]
    rw [show (List.foldl (pushRec key upd) (pushRec key upd d it) l) =
          pushAll key upd (pushRec key upd d it) l from rfl, ih,
      mem_keys_pushRec key upd hk]
    simp only [List.map_cons, List.mem_cons]
    tauto

theorem entry?_key (key : σ → κ) (d : List σ) (k : κ) (c : σ)
    (h : entry? key d k = some c) : key c = k := by
  have := List.find?_some h
  simpa using this

theorem entry?_self_of_nodup (key : σ → κ) :
    ∀ a : List σ, (a.map key).Nodup → ∀ it ∈ a, entry? key a (key it) = some it := by
  intro a
  induction a with
  | nil => intro _ it h'; cases h'
  | cons c rest ih =>
    intro h it hit
    rw [List.map_cons, List.nodup_cons] at h
    rcases List.mem_cons.mp hit with rfl | hmem
    · exact List.find?_cons_of_pos _ (by simp)
    · have hne : ¬ key c = key it := by
        intro h'
        exact h.1 (h' ▸ List.mem_map_of_mem key hmem)
      rw [entry?, List.find?_cons_of_neg _ (by simp [hne])]
      exact ih h.2 it hmem

theorem pushRec_entry_self (key : σ → κ) (upd : σ → σ → σ) (d : List σ) (it : σ)
    (h : entry? key d (key it) = some it) (hself : upd it it = it) :
    pushRec key upd d it = d := by
  induction d with
  | nil => simp [entry?] at h
  | cons c rest ih =>
    by_cases hc : key c = key it
    · have hceq : c = it := by
        rw [entry?, List.find?_cons_of_pos _ (by simp [hc])] at h
        exact Option.some.inj h
      subst hceq
      simp [pushRec, hc, hself]
    · rw [entry?, List.find?_cons_of_neg _ (by simp [hc])] at h
      simp [pushRec, hc, ih h]

/-- Pushing a list of records into a dict that already holds each of them
(under duplicate-free keys, with a self-idempotent update) changes nothing. -/
theorem pushAll_self (key : σ → κ) (upd : σ → σ → σ) (a : List σ)
    (hnd : (a.map key).Nodup) (hself : ∀ it ∈ a, upd it it = it) :
    pushAll key upd a a = a := by
  have main : ∀ l, (∀ it ∈ l, it ∈ a) → pushAll key upd a l = a := by
    intro l
    induction l with
    | nil => intro _; rfl
    | cons it l ih =>
      intro hsub
      have hit : it ∈ a := hsub it (List.mem_cons_self ..)
      have h1 : pushRec key upd a it = a :=
        pushRec_entry_self key upd a it (entry?_self_of_nodup key a hnd it hit)
          (hself it hit)
      simp only [pushAll, List.foldl_cons, h1]
      exact ih (fun x hx => hsub x (List.mem_cons_of_mem _ hx))
  exact main a (fun _ h => h)

theorem pushRec_fresh (key : σ → κ) (upd : σ → σ → σ) (d : List σ) (it : σ)
    (h : key it ∉ keys key d) : pushRec key upd d it = d ++ [it] := by
  induction d with
  | nil => simp [pushRec]
  | cons c rest ih =>
    have hc : ¬ key c = key it := by
      intro h'
      exact h (by simp only [keys, List.map_cons, List.mem_cons]; exact Or.inl h'.symm)
    simp only [pushRec, if_neg hc, List.cons_append]
    congr 1
    refine ih (fun hm => h ?_)
    simp only [keys, List.map_cons, List.mem_cons]
    exact Or.inr hm

/-- Pushing a list with keys all fresh and duplicate-free appends it. -/
theorem pushAll_fresh (key : σ → κ) (upd : σ → σ → σ) :
    ∀ (l d : List σ), (keys key d ++ l.map key).Nodup → pushAll key upd d l = d ++ l := by
  intro l
  induction l with
  | nil => intro d _; simp [pushAll]
  | cons it l ih =>
    intro d h
    have h1 : key it ∉ keys key d := by
      intro hm
      have hsplit := List.nodup_append.mp h
      exact hsplit.2.2 hm (by simp)
    have h2 : pushRec key upd d it = d ++ [it] := pushRec_fresh key upd d it h1
    simp only [pushAll, List.foldl_cons, h2]
    have h3 : (keys key (d ++ [it]) ++ l.map key).Nodup := by
      have : keys key (d ++ [it]) = keys key d ++ [key it] := by
        simp [keys]
      rw [this, List.append_assoc]
      simpa using h
    have := ih (d ++ [it]) h3
    simp only [pushAll] at this
    rw [this, List.append_assoc]
    rfl

end MergeCore

/- ────────────────────────────────────────────────────────────────────────
   Lexicographic pair comparison (Python tuple comparison)
   ──────────────────────────────────────────────────────────────────────── -/


/-- Irreflexivity of a strict comparison follows from asymmetry. -/
theorem ltB_irrefl_of_asymm (lt : α → α → Bool)
    (hasymm : ∀ a b, lt a b = true → lt b a = false) (a : α) : lt a a = false := by
  cases h : lt a a with
  | false => rfl
  | true => exact absurd (hasymm a a h) (by simp [h])

theorem strLtB_irrefl (a : String) : strLtB a a = false :=
  ltB_irrefl_of_asymm strLtB strLtB_asymm a

theorem lexPairLt_asymm [DecidableEq α] (ltA : α → α → Bool) (ltB : β → β → Bool)
    (hA : ∀ a b, ltA a b = true → ltA b a = false)
    (hB : ∀ a b, ltB a b = true → ltB b a = false) :
    ∀ x y : α × β, lexPairLt ltA ltB x y = true → lexPairLt ltA ltB y x = false := by
  intro x y h
  simp only [lexPairLt, Bool.or_eq_true, Bool.and_eq_true, decide_eq_true_eq] at h
  simp only [lexPairLt, Bool.or_eq_false_iff, Bool.and_eq_false_iff,
    decide_eq_false_iff_not]
  rcases h with h | ⟨hEq, hBlt⟩
  · refine ⟨hA _ _ h, Or.inl ?_⟩
    intro hyx
    rw [hyx] at h
    exact absurd h (by simp [ltB_irrefl_of_asymm ltA hA])
  · rw [hEq]
    exact ⟨ltB_irrefl_of_asymm ltA hA _, Or.inr (hB _ _ hBlt)⟩

theorem lexPairLt_letrans [DecidableEq α] (ltA : α → α → Bool) (ltB : β → β → Bool)
    (hAletrans : ∀ a b c, ltA b a = false → ltA c b = false → ltA c a = false)
    (hAantisym : ∀ a b, ltA a b = false → ltA b a = false → a = b)
    (hBletrans : ∀ a b c, ltB b a = false → ltB c b = false → ltB c a = false) :
    ∀ x y z : α × β, lexPairLt ltA ltB y x = false → lexPairLt ltA ltB z y = false →
      lexPairLt ltA ltB z x = false := by
  intro x y z h1 h2
  simp only [lexPairLt, Bool.or_eq_false_iff, Bool.and_eq_false_iff,
    decide_eq_false_iff_not] at h1 h2 ⊢
  obtain ⟨h1a, h1b⟩ := h1
  obtain ⟨h2a, h2b⟩ := h2
  refine ⟨hAletrans _ _ _ h1a h2a, ?_⟩
  by_cases hzx : z.1 = x.1
  · right
    have hzy : z.1 = y.1 := by
      rw [hzx]
      rw [hzx] at h2a
      exact (hAantisym _ _ h1a h2a).symm
    have hyb : ltB y.2 x.2 = false := by
      rcases h1b with h | h
      · exact absurd (hzy.symm.trans hzx) h
      · exact h
    have hzb : ltB z.2 y.2 = false := by
      rcases h2b with h | h
      · exact absurd hzy h
      · exact h
    exact hBletrans _ _ _ hyb hzb
  · exact Or.inl hzx

theorem lexPairLt_antisym [DecidableEq α] (ltA : α → α → Bool) (ltB : β → β → Bool)
    (hAantisym : ∀ a b, ltA a b = false → ltA b a = false → a = b)
    (hBantisym : ∀ a b, ltB a b = false → ltB b a = false → a = b) :
    ∀ x y : α × β, lexPairLt ltA ltB x y = false → lexPairLt ltA ltB y x = false →
      x = y := by
  intro x y h1 h2
  simp only [lexPairLt, Bool.or_eq_false_iff, Bool.and_eq_false_iff,
    decide_eq_false_iff_not] at h1 h2
  obtain ⟨h1a, h1b⟩ := h1
  obtain ⟨h2a, h2b⟩ := h2
  have hA : x.1 = y.1 := hAantisym _ _ h1a h2a
  have hB : x.2 = y.2 := by
    refine hBantisym _ _ ?_ ?_
    · rcases h1b with h | h
      · exact absurd hA h
      · exact h
    · rcases h2b with h | h
      · exact absurd hA.symm h
      · exact h
  exact Prod.ext hA hB

theorem intLtB_asymm (a b : Int) : intLtB a b = true → intLtB b a = false := by
  intro h
  simp only [intLtB, decide_eq_true_eq] at h
  simp only [intLtB, decide_eq_false_iff_not, not_lt]
  omega

theorem intLtB_letrans (a b c : Int) :
    intLtB b a = false → intLtB c b = false → intLtB c a = false := by
  intro h1 h2
  simp only [intLtB, decide_eq_false_iff_not, not_lt] at h1 h2 ⊢
  omega

theorem intLtB_antisym (a b : Int) :
    intLtB a b = false → intLtB b a = false → a = b := by
  intro h1 h2
  simp only [intLtB, decide_eq_false_iff_not, not_lt] at h1 h2
  omega

theorem tripLtB_asymm :
    ∀ x y : String × Int × String, tripLtB x y = true → tripLtB y x = false :=
  lexPairLt_asymm strLtB (lexPairLt intLtB strLtB) strLtB_asymm
    (lexPairLt_asymm intLtB strLtB intLtB_asymm strLtB_asymm)

theorem tripLtB_letrans :
    ∀ x y z : String × Int × String,
      tripLtB y x = false → tripLtB z y = false → tripLtB z x = false :=
  lexPairLt_letrans strLtB (lexPairLt intLtB strLtB)
    (fun _ _ _ => strLtB_le_trans) (fun _ _ => strLtB_antisym)
    (lexPairLt_letrans intLtB strLtB intLtB_letrans intLtB_antisym
      (fun _ _ _ => strLtB_le_trans))

theorem tripLtB_antisym :
    ∀ x y : String × Int × String,
      tripLtB x y = false → tripLtB y x = false → x = y :=
  lexPairLt_antisym strLtB (lexPairLt intLtB strLtB) (fun _ _ => strLtB_antisym)
    (lexPairLt_antisym intLtB strLtB intLtB_antisym (fun _ _ => strLtB_antisym))

/- ────────────────────────────────────────────────────────────────────────
   dict.fromkeys and max facts
   ──────────────────────────────────────────────────────────────────────── -/

theorem mem_pyFromKeysAux :
    ∀ (l seen : List JAtom) (a : JAtom),
      a ∈ pyFromKeysAux l seen ↔ a ∈ l ∧ a ∉ seen := by
  intro l
  induction l with
  | nil => intro seen a; simp [pyFromKeysAux]
  | cons x xs ih =>
    intro seen a
    simp only [pyFromKeysAux]
    by_cases hx : x ∈ seen
    · rw [if_pos hx, ih]
      constructor
      · rintro ⟨h1, h2⟩
        exact ⟨List.mem_cons_of_mem _ h1, h2⟩
      · rintro ⟨h1, h2⟩
        rcases List.mem_cons.mp h1 with rfl | h1
        · exact absurd hx h2
        · exact ⟨h1, h2⟩
    · rw [if_neg hx]
      constructor
      · intro h
        rcases List.mem_cons.mp h with rfl | h
        · exact ⟨List.mem_cons_self .., hx⟩
        · rw [ih] at h
          refine ⟨List.mem_cons_of_mem _ h.1, ?_⟩
          intro hseen
          exact h.2 (List.mem_cons_of_mem _ hseen)
      · rintro ⟨h1, h2⟩
        by_cases hax : a = x
        · subst hax
          exact List.mem_cons_self ..
        · have h1m : a ∈ xs := by
            rcases List.mem_cons.mp h1 with rfl | h
            · exact absurd rfl hax
            · exact h
          apply List.mem_cons_of_mem
          rw [ih]
          exact ⟨h1m, fun hm => (List.mem_cons.mp hm).elim hax h2⟩

theorem mem_pyFromKeys (l : List JAtom) (a : JAtom) : a ∈ pyFromKeys l ↔ a ∈ l := by
  simp [pyFromKeys, mem_pyFromKeysAux]

theorem nodup_pyFromKeysAux : ∀ (l seen : List JAtom), (pyFromKeysAux l seen).Nodup := by
  intro l
  induction l with
  | nil => intro seen; simp [pyFromKeysAux]
  | cons x xs ih =>
    intro seen
    simp only [pyFromKeysAux]
    by_cases hx : x ∈ seen
    · rw [if_pos hx]
      exact ih seen
    · rw [if_neg hx]
      refine List.Nodup.cons ?_ (ih (x :: seen))
      intro hmem
      exact ((mem_pyFromKeysAux xs (x :: seen) x).mp hmem).2 (List.mem_cons_self ..)

theorem nodup_pyFromKeys (l : List JAtom) : (pyFromKeys l).Nodup :=
  nodup_pyFromKeysAux l []

theorem pyFromKeysAux_self :
    ∀ (l seen l2 : List JAtom), l.Nodup → (∀ x ∈ l, x ∉ seen) →
      (∀ x ∈ l2, x ∈ l ∨ x ∈ seen) → pyFromKeysAux (l ++ l2) seen = l := by
  intro l
  induction l with
  | nil =>
    intro seen l2 _ _ hsub
    simp only [List.nil_append]
    induction l2 with
    | nil => simp [pyFromKeysAux]
    | cons y ys ih2 =>
      have hy : y ∈ seen := by
        rcases hsub y (List.mem_cons_self ..) with h | h
        · cases h
        · exact h
      simp only [pyFromKeysAux, if_pos hy]
      exact ih2 (fun x hx => hsub x (List.mem_cons_of_mem _ hx))
  | cons x xs ih =>
    intro seen l2 hnd hseen hsub
    rw [List.nodup_cons] at hnd
    have hx : x ∉ seen := hseen x (List.mem_cons_self ..)
    simp only [List.cons_append, pyFromKeysAux, if_neg hx]
    congr 1
    refine ih (x :: seen) l2 hnd.2 ?_ ?_
    · intro y hy
      intro hmem
      rcases List.mem_cons.mp hmem with rfl | hmem
      · exact hnd.1 hy
      · exact hseen y (List.mem_cons_of_mem _ hy) hmem
    · intro y hy
      rcases hsub y hy with h | h
      · rcases List.mem_cons.mp h with rfl | h
        · exact Or.inr (List.mem_cons_self ..)
        · exact Or.inl h
      · exact Or.inr (List.mem_cons_of_mem _ h)

/-- The dict-based guard union of a duplicate-free list with itself is the
list itself. -/
theorem pyFromKeys_self_append (l : List JAtom) (h : l.Nodup) :
    pyFromKeys (l ++ l) = l :=
  pyFromKeysAux_self l [] l h (by simp) (fun x hx => Or.inl hx)

theorem pyFromKeys_eq_self (l : List JAtom) (h : l.Nodup) : pyFromKeys l = l := by
  have := pyFromKeysAux_self l [] [] h (by simp) (by simp)
  simpa [pyFromKeys] using this

theorem pyMaxQ_cases (a b : ℚ) : pyMaxQ a b = a ∨ pyMaxQ a b = b := by
  unfold pyMaxQ
  split
  · exact Or.inr rfl
  · exact Or.inl rfl

theorem le_pyMaxQ_left (a b : ℚ) : a ≤ pyMaxQ a b := by
  unfold pyMaxQ
  split
  · linarith
  · linarith

theorem le_pyMaxQ_right (a b : ℚ) : b ≤ pyMaxQ a b := by
  unfold pyMaxQ
  split
  · linarith
  · linarith

theorem pyMaxQ_self (a : ℚ) : pyMaxQ a a = a := by
  unfold pyMaxQ
  simp

/- ────────────────────────────────────────────────────────────────────────
   mergeFold as a fold
   ──────────────────────────────────────────────────────────────────────── -/

namespace MergeCore

theorem mergeFold_some (upd : σ → σ → σ) :
    ∀ (ms : List σ) (c : σ), mergeFold upd (some c) ms = some (ms.foldl upd c) := by
  intro ms
  induction ms with
  | nil => intro c; rfl
  | cons r ms ih =>
    intro c
    simp only [mergeFold, List.foldl_cons] at ih ⊢
    exact ih (upd c r)

theorem mergeFold_none_cons (upd : σ → σ → σ) (r : σ) (ms : List σ) :
    mergeFold upd none (r :: ms) = some (ms.foldl upd r) := by
  simp only [mergeFold, List.foldl_cons]
  exact mergeFold_some upd ms r

theorem entry?_isSome_of_mem_keys [DecidableEq κ] (key : σ → κ) (d : List σ) (k : κ)
    (h : k ∈ keys key d) : ∃ e, entry? key d k = some e := by
  rw [keys, List.mem_map] at h
  obtain ⟨c, hc, hkc⟩ := h
  have : (List.find? (fun c => decide (key c = k)) d).isSome := by
    rw [List.find?_isSome]
    exact ⟨c, hc, by simp [hkc]⟩
  rcases Option.isSome_iff_exists.mp this with ⟨e, he⟩
  exact ⟨e, he⟩

end MergeCore

/- ────────────────────────────────────────────────────────────────────────
   Per-field characterization of the name-keyed merge
   ──────────────────────────────────────────────────────────────────────── -/

namespace CNC

theorem mergeUpd_preserves_name : ∀ c i : EC, (mergeUpd c i).name = c.name :=
  fun _ _ => rfl

theorem foldl_mergeUpd_name :
    ∀ (ms : List EC) (c : EC), (ms.foldl mergeUpd c).name = c.name := by
  intro ms
  induction ms with
  | nil => intro c; rfl
  | cons r ms ih =>
    intro c
    simp only [List.foldl_cons]
    rw [ih, mergeUpd_preserves_name]

theorem foldl_mergeUpd_conf_mem :
    ∀ (ms : List EC) (c : EC),
      (ms.foldl mergeUpd c).confidence = c.confidence ∨
        (ms.foldl mergeUpd c).confidence ∈ ms.map (fun r => r.confidence) := by
  intro ms
  induction ms with
  | nil => intro c; exact Or.inl rfl
  | cons r ms ih =>
    intro c
    simp only [List.foldl_cons, List.map_cons]
    rcases ih (mergeUpd c r) with h | h
    · rw [h]
      show pyMaxQ c.confidence r.confidence = c.confidence ∨ _
      rcases pyMaxQ_cases c.confidence r.confidence with h' | h'
      · exact Or.inl h'
      · exact Or.inr (h' ▸ List.mem_cons_self ..)
    · exact Or.inr (List.mem_cons_of_mem _ h)

theorem foldl_mergeUpd_conf_ub :
    ∀ (ms : List EC) (c : EC),
      c.confidence ≤ (ms.foldl mergeUpd c).confidence ∧
        ∀ r ∈ ms, r.confidence ≤ (ms.foldl mergeUpd c).confidence := by
  intro ms
  induction ms with
  | nil => intro c; exact ⟨le_refl _, by simp⟩
  | cons r ms ih =>
    intro c
    simp only [List.foldl_cons]
    obtain ⟨h1, h2⟩ := ih (mergeUpd c r)
    have hstep : (mergeUpd c r).confidence = pyMaxQ c.confidence r.confidence := rfl
    refine ⟨le_trans (by rw [hstep]; exact le_pyMaxQ_left ..) h1, ?_⟩
    intro x hx
    rcases List.mem_cons.mp hx with rfl | hx
    · exact le_trans (by rw [hstep]; exact le_pyMaxQ_right ..) h1
    · exact h2 x hx

theorem foldl_mergeUpd_cond :
    ∀ (ms : List EC) (c : EC),
      ((ms.foldl mergeUpd c).conditioned = true ↔
        c.conditioned = true ∨ ∃ r ∈ ms, r.conditioned = true) := by
  intro ms
  induction ms with
  | nil => intro c; simp
  | cons r ms ih =>
    intro c
    simp only [List.foldl_cons]
    rw [ih (mergeUpd c r)]
    show (c.conditioned || r.conditioned) = true ∨ _ ↔ _
    simp only [Bool.or_eq_true, List.mem_cons]
    constructor
    · rintro ((h | h) | ⟨x, hx, h⟩)
      · exact Or.inl h
      · exact Or.inr ⟨r, Or.inl rfl, h⟩
      · exact Or.inr ⟨x, Or.inr hx, h⟩
    · rintro (h | ⟨x, (rfl | hx), h⟩)
      · exact Or.inl (Or.inl h)
      · exact Or.inl (Or.inr h)
      · exact Or.inr ⟨x, hx, h⟩

theorem foldl_mergeUpd_further :
    ∀ (ms : List EC) (c : EC),
      ((ms.foldl mergeUpd c).further_expand = true ↔
        c.further_expand = true ∨ ∃ r ∈ ms, r.further_expand = true) := by
  intro ms
  induction ms with
  | nil => intro c; simp
  | cons r ms ih =>
    intro c
    simp only [List.foldl_cons]
    rw [ih (mergeUpd c r)]
    show (c.further_expand || r.further_expand) = true ∨ _ ↔ _
    simp only [Bool.or_eq_true, List.mem_cons]
    constructor
    · rintro ((h | h) | ⟨x, hx, h⟩)
      · exact Or.inl h
      · exact Or.inr ⟨r, Or.inl rfl, h⟩
      · exact Or.inr ⟨x, Or.inr hx, h⟩
    · rintro (h | ⟨x, (rfl | hx), h⟩)
      · exact Or.inl (Or.inl h)
      · exact Or.inl (Or.inr h)
      · exact Or.inr ⟨x, hx, h⟩

theorem foldl_mergeUpd_guards :
    ∀ (ms : List EC) (c : EC) (g : JAtom),
      (g ∈ (ms.foldl mergeUpd c).guards ↔
        g ∈ c.guards ∨ ∃ r ∈ ms, g ∈ r.guards) := by
  intro ms
  induction ms with
  | nil => intro c g; simp
  | cons r ms ih =>
    intro c g
    simp only [List.foldl_cons]
    rw [ih (mergeUpd c r)]
    show g ∈ pyFromKeys (c.guards ++ r.guards) ∨ _ ↔ _
    rw [mem_pyFromKeys, List.mem_append]
    simp only [List.mem_cons]
    constructor
    · rintro ((h | h) | ⟨x, hx, h⟩)
      · exact Or.inl h
      · exact Or.inr ⟨r, Or.inl rfl, h⟩
      · exact Or.inr ⟨x, Or.inr hx, h⟩
    · rintro (h | ⟨x, (rfl | hx), h⟩)
      · exact Or.inl (Or.inl h)
      · exact Or.inl (Or.inr h)
      · exact Or.inr ⟨x, hx, h⟩

theorem entry?_mergeDict (a b : List EC) (k : String) :
    MergeCore.entry? (fun ec => ec.name) (mergeDict a b) k =
      MergeCore.mergeFold mergeUpd none
        ((a ++ b).filter (fun c => decide (c.name = k))) := by
  unfold mergeDict
  rw [MergeCore.entry?_pushAll (fun ec => ec.name) mergeUpd mergeUpd_preserves_name,
    MergeCore.entry?_pushAll (fun ec => ec.name) mergeUpd mergeUpd_preserves_name,
    List.filter_append, MergeCore.mergeFold_append]
  rfl

theorem mem_keys_mergeDict (a b : List EC) (k : String) :
    k ∈ (mergeDict a b).map (fun ec => ec.name) ↔
      k ∈ a.map (fun ec => ec.name) ∨ k ∈ b.map (fun ec => ec.name) := by
  unfold mergeDict
  have h1 := MergeCore.mem_keys_pushAll (fun ec => ec.name) mergeUpd mergeUpd_preserves_name b
    (MergeCore.pushAll (fun ec => ec.name) mergeUpd [] a) k
  have h2 := MergeCore.mem_keys_pushAll (fun ec => ec.name) mergeUpd mergeUpd_preserves_name a
    ([] : List EC) k
  simp only [MergeCore.keys] at h1 h2
  rw [h1, h2]
  simp [or_comm, or_assoc]

theorem nodup_keys_mergeDict (a b : List EC) :
    ((mergeDict a b).map (fun ec => ec.name)).Nodup := by
  unfold mergeDict
  have h2 := MergeCore.nodup_keys_pushAll (fun ec => ec.name) mergeUpd mergeUpd_preserves_name a
    ([] : List EC) (by simp [MergeCore.keys])
  have h1 := MergeCore.nodup_keys_pushAll (fun ec => ec.name) mergeUpd mergeUpd_preserves_name b
    (MergeCore.pushAll (fun ec => ec.name) mergeUpd [] a) h2
  simpa [MergeCore.keys] using h1

/-- Every record the merged dict holds for key `k` is characterized field by
field over the key-`k` records of the two inputs in iteration order. -/
theorem merged_entry_spec (a b : List EC) (k : String) (e : EC)
    (h : MergeCore.entry? (fun ec => ec.name) (mergeDict a b) k = some e) :
    (e.confidence ∈ ((a ++ b).filter (fun c => decide (c.name = k))).map (fun r => r.confidence) ∧
      ∀ q ∈ ((a ++ b).filter (fun c => decide (c.name = k))).map (fun r => r.confidence),
        q ≤ e.confidence) ∧
    (e.conditioned = true ↔
      ∃ r ∈ (a ++ b).filter (fun c => decide (c.name = k)), r.conditioned = true) ∧
    (e.further_expand = true ↔
      ∃ r ∈ (a ++ b).filter (fun c => decide (c.name = k)), r.further_expand = true) ∧
    (∀ g, g ∈ e.guards ↔
      ∃ r ∈ (a ++ b).filter (fun c => decide (c.name = k)), g ∈ r.guards) := by
  rw [entry?_mergeDict] at h
  cases hM : (a ++ b).filter (fun c => decide (c.name = k)) with
  | nil =>
    rw [hM] at h
    simp [MergeCore.mergeFold] at h
  | cons r ms =>
    rw [hM, MergeCore.mergeFold_none_cons] at h
    have he : e = ms.foldl mergeUpd r := (Option.some.inj h).symm
    subst he
    refine ⟨⟨?_, ?_⟩, ?_, ?_, ?_⟩
    · simp only [List.map_cons]
      rcases foldl_mergeUpd_conf_mem ms r with h' | h'
      · exact h' ▸ List.mem_cons_self ..
      · exact List.mem_cons_of_mem _ h'
    · intro q hq
      simp only [List.map_cons, List.mem_cons] at hq
      obtain ⟨h1, h2⟩ := foldl_mergeUpd_conf_ub ms r
      rcases hq with rfl | hq
      · exact h1
      · rw [List.mem_map] at hq
        obtain ⟨x, hx, rfl⟩ := hq
        exact h2 x hx
    · rw [foldl_mergeUpd_cond ms r]
      simp only [List.mem_cons]
      constructor
      · rintro (h' | ⟨x, hx, h'⟩)
        · exact ⟨r, Or.inl rfl, h'⟩
        · exact ⟨x, Or.inr hx, h'⟩
      · rintro ⟨x, (rfl | hx), h'⟩
        · exact Or.inl h'
        · exact Or.inr ⟨x, hx, h'⟩
    · rw [foldl_mergeUpd_further ms r]
      simp only [List.mem_cons]
      constructor
      · rintro (h' | ⟨x, hx, h'⟩)
        · exact ⟨r, Or.inl rfl, h'⟩
        · exact ⟨x, Or.inr hx, h'⟩
      · rintro ⟨x, (rfl | hx), h'⟩
        · exact Or.inl h'
        · exact Or.inr ⟨x, hx, h'⟩
    · intro g
      rw [foldl_mergeUpd_guards ms r g]
      simp only [List.mem_cons]
      constructor
      · rintro (h' | ⟨x, hx, h'⟩)
        · exact ⟨r, Or.inl rfl, h'⟩
        · exact ⟨x, Or.inr hx, h'⟩
      · rintro ⟨x, (rfl | hx), h'⟩
        · exact Or.inl h'
        · exact Or.inr ⟨x, hx, h'⟩

end CNC

namespace CNC

theorem entry?_rec_name (d : List EC) (k : String) (e : EC)
    (h : MergeCore.entry? (fun ec => ec.name) d k = some e) : e.name = k :=
  MergeCore.entry?_key (fun ec => ec.name) d k e h

theorem merge_by_name_map_name (a b : List EC) :
    (_merge_by_name a b).map (fun ec => ec.name) =
      sortStable strLtB ((mergeDict a b).map (fun ec => ec.name)) := by
  unfold _merge_by_name
  rw [List.map_map]
  have hpt : ∀ k ∈ sortStable strLtB ((mergeDict a b).map (fun ec => ec.name)),
      ((fun ec => ec.name) ∘
        fun k => (MergeCore.entry? (fun ec => ec.name) (mergeDict a b) k).getD default) k
        = k := by
    intro k hk
    rw [mem_sortStable] at hk
    obtain ⟨e, he⟩ := MergeCore.entry?_isSome_of_mem_keys (fun ec => ec.name)
      (mergeDict a b) k (by simpa [MergeCore.keys] using hk)
    simp [Function.comp, he, entry?_rec_name _ _ _ he]
  rw [List.map_congr_left hpt]
  simp

theorem merge_names_comm (a b : List EC) :
    (_merge_by_name a b).map (fun ec => ec.name) =
      (_merge_by_name b a).map (fun ec => ec.name) := by
  rw [merge_by_name_map_name, merge_by_name_map_name]
  exact sortStable_congr strLtB strLtB_asymm (fun _ _ _ => strLtB_le_trans)
    (fun _ _ => strLtB_antisym) (nodup_keys_mergeDict a b) (nodup_keys_mergeDict b a)
    (fun k => by rw [mem_keys_mergeDict, mem_keys_mergeDict]; exact or_comm)

theorem merge_by_name_sortedB (a b : List EC) :
    SortedB (fun x y : EC => strLtB x.name y.name) (_merge_by_name a b) := by
  have hs := sortedB_sortStable strLtB strLtB_asymm (fun _ _ _ => strLtB_le_trans)
    ((mergeDict a b).map (fun ec => ec.name))
  unfold _merge_by_name
  rw [SortedB, List.pairwise_map]
  rw [SortedB] at hs
  refine List.Pairwise.imp_of_mem ?_ hs
  intro k1 k2 h1 h2 hlt
  obtain ⟨e1, he1⟩ := MergeCore.entry?_isSome_of_mem_keys (fun ec => ec.name)
    (mergeDict a b) k1 (by simpa [MergeCore.keys, mem_sortStable] using h1)
  obtain ⟨e2, he2⟩ := MergeCore.entry?_isSome_of_mem_keys (fun ec => ec.name)
    (mergeDict a b) k2 (by simpa [MergeCore.keys, mem_sortStable] using h2)
  simp only [he1, he2, Option.getD_some]
  rw [entry?_rec_name _ _ _ he1, entry?_rec_name _ _ _ he2]
  exact hlt

theorem mergeUpd_self (ec : EC) (h : ec.guards.Nodup) : mergeUpd ec ec = ec := by
  simp [mergeUpd, ite_self, pyMaxQ_self, Bool.or_self, pyFromKeys_self_append ec.guards h]

theorem mergeDict_self (a : List EC) (hnd : (a.map (fun ec => ec.name)).Nodup)
    (hg : ∀ ec ∈ a, ec.guards.Nodup) : mergeDict a a = a := by
  unfold mergeDict
  have h0 : MergeCore.pushAll (fun ec => ec.name) mergeUpd [] a = a := by
    have := MergeCore.pushAll_fresh (fun ec => ec.name) mergeUpd a []
      (by simpa [MergeCore.keys] using hnd)
    simpa using this
  rw [h0]
  exact MergeCore.pushAll_self (fun ec => ec.name) mergeUpd a hnd
    (fun it hit => mergeUpd_self it (hg it hit))

theorem merge_by_name_self (a : List EC) (hnd : (a.map (fun ec => ec.name)).Nodup)
    (hg : ∀ ec ∈ a, ec.guards.Nodup) :
    _merge_by_name a a = sortStable (fun x y : EC => strLtB x.name y.name) a := by
  unfold _merge_by_name
  rw [mergeDict_self a hnd hg]
  have hmapsort : sortStable strLtB (a.map (fun ec => ec.name)) =
      (sortStable (fun x y : EC => strLtB x.name y.name) a).map (fun ec => ec.name) :=
    (sortStable_map (fun x y : EC => strLtB x.name y.name) strLtB (fun ec => ec.name)
      (fun _ _ => rfl) a).symm
  rw [hmapsort, List.map_map]
  have hpt : ∀ e ∈ sortStable (fun x y : EC => strLtB x.name y.name) a,
      ((fun k => (MergeCore.entry? (fun ec => ec.name) a k).getD default) ∘
        fun ec => ec.name) e = e := by
    intro e he
    rw [mem_sortStable] at he
    have := MergeCore.entry?_self_of_nodup (fun ec => ec.name) a hnd e he
    simp [Function.comp, this]
  rw [List.map_congr_left hpt]
  simp

theorem merge_singletons (x y : EC) (h : x.name = y.name) :
    _merge_by_name [x] [y] = [mergeUpd x y] := by
  have hD : mergeDict [x] [y] = [mergeUpd x y] := by
    unfold mergeDict
    simp only [MergeCore.pushAll, List.foldl_cons, List.foldl_nil, MergeCore.pushRec]
    rw [if_pos h]
  unfold _merge_by_name
  rw [hD]
  simp only [List.map_cons, List.map_nil, mergeUpd_preserves_name]
  simp only [sortStable, List.foldr_cons, List.foldr_nil, insertStable]
  simp only [MergeCore.entry?, List.find?, mergeUpd_preserves_name]
  simp

theorem string_eq_empty_of_length (s : String) (h : s.length = 0) : s = "" := by
  cases s with
  | mk data =>
    simp only [String.length] at h
    rw [List.length_eq_zero] at h
    rw [h]

theorem mergeUpd_snippet_empty_incoming (x y : EC) (h : y.code_snippet = "") :
    (mergeUpd x y).code_snippet = x.code_snippet := by
  simp [mergeUpd, h]

theorem mergeUpd_snippet_empty_current (x y : EC) (hx : x.code_snippet = "")
    (hy : y.code_snippet ≠ "") : (mergeUpd x y).code_snippet = y.code_snippet := by
  simp [mergeUpd, hx, hy]

theorem mergeUpd_snippet_shorter (x y : EC) (hy : y.code_snippet ≠ "")
    (hlen : y.code_snippet.length < x.code_snippet.length) :
    (mergeUpd x y).code_snippet = y.code_snippet := by
  have : y.code_snippet ≠ "" ∧
      (x.code_snippet = "" ∨ y.code_snippet.length < x.code_snippet.length) :=
    ⟨hy, Or.inr hlen⟩
  simp [mergeUpd, this]

theorem mergeUpd_snippet_tie (x y : EC)
    (hlen : y.code_snippet.length = x.code_snippet.length) :
    (mergeUpd x y).code_snippet = x.code_snippet := by
  by_cases hy : y.code_snippet = ""
  · exact mergeUpd_snippet_empty_incoming x y hy
  · have hcond : ¬ (y.code_snippet ≠ "" ∧
        (x.code_snippet = "" ∨ y.code_snippet.length < x.code_snippet.length)) := by
      rintro ⟨_, hx | hlt⟩
      · have : x.code_snippet.length = 0 := by rw [hx]; rfl
        exact hy (string_eq_empty_of_length _ (by omega))
      · omega
    simp [mergeUpd, hcond]

end CNC

/- ────────────────────────────────────────────────────────────────────────
   Normalization facts
   ──────────────────────────────────────────────────────────────────────── -/

theorem clamp01 (q : ℚ) : 0 ≤ pyMaxQ 0 (pyMinQ 1 q) ∧ pyMaxQ 0 (pyMinQ 1 q) ≤ 1 := by
  unfold pyMaxQ pyMinQ
  split_ifs <;> constructor <;> linarith

namespace CNC

theorem norm_one_fields (it : JObj) (ec : EC) (h : _norm_one it = Except.ok ec) :
    ec.name = strField it "name" ∧ 0 ≤ ec.confidence ∧ ec.confidence ≤ 1 := by
  unfold _norm_one at h
  cases h1 : pyFloatField (pyObjGet it "confidence" (JField.fatom (JAtom.jfloat 0))) with
  | none => rw [h1] at h; cases h
  | some q =>
    rw [h1] at h
    cases h2 : pyGuardList (pyObjGet it "guards" (JField.farr [])) with
    | error e => rw [h2] at h; cases h
    | ok gs =>
      rw [h2] at h
      cases h
      exact ⟨rfl, clamp01 q⟩

theorem norm_list_cons (it : JObj) (rest : List JObj) :
    _norm_ec_list (it :: rest) =
      match _norm_one it with
      | Except.error e => Except.error e
      | Except.ok ec =>
        match _norm_ec_list rest with
        | Except.error e => Except.error e
        | Except.ok out => Except.ok (if ec.name ≠ "" then ec :: out else out) := rfl

theorem norm_list_inv :
    ∀ (items : List JObj) (out : List EC), _norm_ec_list items = Except.ok out →
      ∀ ec ∈ out, ec.name ≠ "" ∧ 0 ≤ ec.confidence ∧ ec.confidence ≤ 1 := by
  intro items
  induction items with
  | nil =>
    intro out h ec hm
    cases h
    cases hm
  | cons it rest ih =>
    intro out h ec hm
    rw [norm_list_cons] at h
    cases h1 : _norm_one it with
    | error e => rw [h1] at h; cases h
    | ok ec1 =>
      rw [h1] at h
      cases h2 : _norm_ec_list rest with
      | error e => rw [h2] at h; cases h
      | ok out' =>
        rw [h2] at h
        simp only [] at h
        by_cases hname : ec1.name ≠ ""
        · rw [if_pos hname] at h
          cases h
          rcases List.mem_cons.mp hm with rfl | hm
          · exact ⟨hname, (norm_one_fields it ec h1).2⟩
          · exact ih _ h2 ec hm
        · rw [if_neg hname] at h
          cases h
          exact ih _ h2 ec hm

theorem norm_list_drops_empty_name (it : JObj) (rest : List JObj) (out : List EC)
    (hname : strField it "name" = "") (h : _norm_ec_list (it :: rest) = Except.ok out) :
    _norm_ec_list rest = Except.ok out := by
  rw [norm_list_cons] at h
  cases h1 : _norm_one it with
  | error e => rw [h1] at h; cases h
  | ok ec1 =>
    rw [h1] at h
    cases h2 : _norm_ec_list rest with
    | error e => rw [h2] at h; cases h
    | ok out' =>
      rw [h2] at h
      simp only [] at h
      have : ec1.name = "" := by rw [(norm_one_fields it ec1 h1).1, hname]
      rw [if_neg (by simp [this])] at h
      cases h
      rfl

end CNC

namespace NL

theorem norm_one_name (it : JObj) (ec : EC) (h : _norm_one it = Except.ok ec) :
    ec.name = CNC.strField it "name" := by
  unfold _norm_one at h
  cases h1 : pyFloatField (pyObjGet it "confidence" (JField.fatom (JAtom.jfloat 0))) with
  | none => rw [h1] at h; cases h
  | some q =>
    rw [h1] at h
    cases h2 : pyGuardList (pyObjGet it "guards" (JField.farr [])) with
    | error e => rw [h2] at h; cases h
    | ok gs =>
      rw [h2] at h
      cases h
      rfl

theorem nl_norm_list_cons (it : JObj) (rest : List JObj) :
    _norm_ec_list (it :: rest) =
      match _norm_one it with
      | Except.error e => Except.error e
      | Except.ok ec =>
        match _norm_ec_list rest with
        | Except.error e => Except.error e
        | Except.ok out =>
          Except.ok (if ec.name ≠ "" then
            { ec with confidence := pyMaxQ 0 (pyMinQ 1 ec.confidence) } :: out
          else out) := rfl

theorem nl_norm_list_inv :
    ∀ (items : List JObj) (out : List EC), _norm_ec_list items = Except.ok out →
      ∀ ec ∈ out, ec.name ≠ "" ∧ 0 ≤ ec.confidence ∧ ec.confidence ≤ 1 := by
  intro items
  induction items with
  | nil =>
    intro out h ec hm
    cases h
    cases hm
  | cons it rest ih =>
    intro out h ec hm
    rw [nl_norm_list_cons] at h
    cases h1 : _norm_one it with
    | error e => rw [h1] at h; cases h
    | ok ec1 =>
      rw [h1] at h
      cases h2 : _norm_ec_list rest with
      | error e => rw [h2] at h; cases h
      | ok out' =>
        rw [h2] at h
        simp only [] at h
        by_cases hname : ec1.name ≠ ""
        · rw [if_pos hname] at h
          cases h
          rcases List.mem_cons.mp hm with rfl | hm
          · exact ⟨hname, clamp01 ec1.confidence⟩
          · exact ih _ h2 ec hm
        · rw [if_neg hname] at h
          cases h
          exact ih _ h2 ec hm

theorem nl_norm_list_drops_empty_name (it : JObj) (rest : List JObj) (out : List EC)
    (hname : CNC.strField it "name" = "") (h : _norm_ec_list (it :: rest) = Except.ok out) :
    _norm_ec_list rest = Except.ok out := by
  rw [nl_norm_list_cons] at h
  cases h1 : _norm_one it with
  | error e => rw [h1] at h; cases h
  | ok ec1 =>
    rw [h1] at h
    cases h2 : _norm_ec_list rest with
    | error e => rw [h2] at h; cases h
    | ok out' =>
      rw [h2] at h
      simp only [] at h
      have : ec1.name = "" := by rw [norm_one_name it ec1 h1, hname]
      rw [if_neg (by simp [this])] at h
      cases h
      rfl

end NL

/- ────────────────────────────────────────────────────────────────────────
   Claim C4 — composite key preserves duplicates
   ──────────────────────────────────────────────────────────────────────── -/

/-- C4: two candidates with identical name and code_snippet but different
comment values stay separate records under the composite key `(name,
code_snippet, comment)` — in both `_merge_ecs` and `_merge_ec_lists` — while
the same two candidates under the name-only key of `_merge_by_name` collapse
into a single record. -/
theorem C4_composite_key_preserves_duplicates :
    Corr._merge_ecs [ceInst] [ceSrc] = [ceInst, ceSrc] ∧
    Corr._merge_ec_lists [ceInst] [ceSrc] = [ceInst, ceSrc] ∧
    Corr._merge_key ceInst ≠ Corr._merge_key ceSrc ∧
    CNC._merge_by_name [seInst] [seInst] = [seInst] := by
  refine ⟨by decide, by decide, by decide, by decide⟩

/- ────────────────────────────────────────────────────────────────────────
   Claim C3 — confidence coercion failure
   ──────────────────────────────────────────────────────────────────────── -/

/-- C3 counterexample: a raw item with a non-empty name whose confidence
value (JSON null) cannot be coerced to float makes `_norm_ec_list` raise
(ValueError), instead of substituting 0.0 and keeping the item as the claim
states. -/
theorem C3_confidence_coercion_counterexample :
    CNC._norm_ec_list [badConfItem] = Except.error PyErr.valueError ∧
    ∀ out : List CNC.EC, CNC._norm_ec_list [badConfItem] ≠ Except.ok out := by
  refine ⟨rfl, ?_⟩
  intro out h
  rw [show CNC._norm_ec_list [badConfItem] = Except.error PyErr.valueError from rfl] at h
  cases h

/-- C3 as amended: normalization clamps every kept confidence to [0, 1] and
uses 0.0 when the confidence field is absent, but a present confidence value
that `float()` cannot coerce makes normalization raise a ValueError that
propagates — it is not replaced by 0.0. -/
theorem C3_confidence_coercion_amended :
    (∀ it : JObj, it.find? (fun p => p.1 = "confidence") = none →
      ∀ ec : CNC.EC, CNC._norm_one it = Except.ok ec → ec.confidence = 0) ∧
    (∀ it : JObj,
      pyFloatField (pyObjGet it "confidence" (JField.fatom (JAtom.jfloat 0))) = none →
      CNC._norm_one it = Except.error PyErr.valueError) ∧
    (∀ (it : JObj) (ec : CNC.EC), CNC._norm_one it = Except.ok ec →
      0 ≤ ec.confidence ∧ ec.confidence ≤ 1) := by
  refine ⟨?_, ?_, ?_⟩
  · intro it hfind ec h
    have hget : pyObjGet it "confidence" (JField.fatom (JAtom.jfloat 0)) =
        JField.fatom (JAtom.jfloat 0) := by
      rw [pyObjGet, hfind]
      rfl
    unfold CNC._norm_one at h
    rw [hget] at h
    cases h2 : pyGuardList (pyObjGet it "guards" (JField.farr [])) with
    | error e => rw [show pyFloatField (JField.fatom (JAtom.jfloat 0)) = some 0 from rfl, h2] at h; cases h
    | ok gs =>
      rw [show pyFloatField (JField.fatom (JAtom.jfloat 0)) = some 0 from rfl, h2] at h
      cases h
      show pyMaxQ 0 (pyMinQ 1 0) = 0
      rfl
  · intro it hfloat
    unfold CNC._norm_one
    rw [hfloat]
  · intro it ec h
    exact (CNC.norm_one_fields it ec h).2

/-- C3 witness: the amended statements at concrete inputs. -/
theorem C3_confidence_coercion_witness :
    (okItem.find? (fun p => p.1 = "confidence") = none ∧
      CNC._norm_one okItem = Except.ok ⟨"x", "", "", false, 0, false, []⟩ ∧
      (⟨"x", "", "", false, 0, false, []⟩ : CNC.EC).confidence = 0) ∧
    (pyFloatField (pyObjGet badConfItem "confidence" (JField.fatom (JAtom.jfloat 0))) = none ∧
      CNC._norm_one badConfItem = Except.error PyErr.valueError) := by
  refine ⟨⟨by decide, rfl, ?_⟩, ⟨rfl, ?_⟩⟩
  · exact C3_confidence_coercion_amended.1 okItem (by decide)
      ⟨"x", "", "", false, 0, false, []⟩ rfl
  · exact C3_confidence_coercion_amended.2.1 badConfItem rfl

/- ────────────────────────────────────────────────────────────────────────
   Claim C9 — normalization invariants
   ──────────────────────────────────────────────────────────────────────── -/

/-- C9: every record surviving `_norm_ec_list` (in chained_net_call.py and
newlambda.py alike) has a non-empty stripped name and a confidence in
[0, 1]; and an item whose name strips to the empty string contributes
nothing to the output, whatever its other fields hold. -/
theorem C9_normalization_invariants :
    (∀ (items : List JObj) (out : List CNC.EC),
      CNC._norm_ec_list items = Except.ok out →
      ∀ ec ∈ out, ec.name ≠ "" ∧ 0 ≤ ec.confidence ∧ ec.confidence ≤ 1) ∧
    (∀ (items : List JObj) (out : List NL.EC),
      NL._norm_ec_list items = Except.ok out →
      ∀ ec ∈ out, ec.name ≠ "" ∧ 0 ≤ ec.confidence ∧ ec.confidence ≤ 1) ∧
    (∀ (it : JObj) (rest : List JObj) (out : List CNC.EC),
      CNC.strField it "name" = "" → CNC._norm_ec_list (it :: rest) = Except.ok out →
      CNC._norm_ec_list rest = Except.ok out) ∧
    (∀ (it : JObj) (rest : List JObj) (out : List NL.EC),
      CNC.strField it "name" = "" → NL._norm_ec_list (it :: rest) = Except.ok out →
      NL._norm_ec_list rest = Except.ok out) :=
  ⟨CNC.norm_list_inv, NL.nl_norm_list_inv,
    fun it rest out h1 h2 => CNC.norm_list_drops_empty_name it rest out h1 h2,
    fun it rest out h1 h2 => NL.nl_norm_list_drops_empty_name it rest out h1 h2⟩

/-- C9 witness: the invariants evaluated on concrete items, including an
item whose name strips to empty being dropped. -/
theorem C9_normalization_invariants_witness :
    (CNC._norm_ec_list [okItem] = Except.ok [⟨"x", "", "", false, 0, false, []⟩] ∧
      ∀ ec ∈ ([⟨"x", "", "", false, 0, false, []⟩] : List CNC.EC),
        ec.name ≠ "" ∧ 0 ≤ ec.confidence ∧ ec.confidence ≤ 1) ∧
    (CNC.strField emptyNameItem "name" = "" ∧
      CNC._norm_ec_list (emptyNameItem :: [okItem]) =
        Except.ok [⟨"x", "", "", false, 0, false, []⟩] ∧
      CNC._norm_ec_list [okItem] = Except.ok [⟨"x", "", "", false, 0, false, []⟩]) ∧
    (NL._norm_ec_list [okItem] = Except.ok [⟨"x", "", "", false, 0, false, []⟩]) := by
  refine ⟨⟨rfl, ?_⟩, ⟨by decide, rfl, ?_⟩, rfl⟩
  · exact C9_normalization_invariants.1 [okItem] _ rfl
  · exact C9_normalization_invariants.2.2.1 emptyNameItem [okItem] _ (by decide) rfl

/- ────────────────────────────────────────────────────────────────────────
   Claim C8 — guard union
   ──────────────────────────────────────────────────────────────────────── -/

/-- C8: merging two records under one key unions their guards with
duplicates removed and first-seen order preserved, left list first — the
merged guards are exactly `dict.fromkeys(cur + it)`, duplicate-free, with
membership the union of both sides; and the documented concrete instance
["a","b"] ∪ ["b","c"] = ["a","b","c"] holds. -/
theorem C8_guard_union :
    (∀ x y : CNC.EC, x.name = y.name →
      ∃ e, CNC._merge_by_name [x] [y] = [e] ∧
        e.guards = pyFromKeys (x.guards ++ y.guards) ∧
        e.guards.Nodup ∧
        (∀ g, g ∈ e.guards ↔ g ∈ x.guards ++ y.guards)) ∧
    (CNC._merge_by_name [ecG1] [ecG2]).map (fun e => e.guards) =
      [[JAtom.jstr "a", JAtom.jstr "b", JAtom.jstr "c"]] := by
  constructor
  · intro x y h
    refine ⟨CNC.mergeUpd x y, CNC.merge_singletons x y h, rfl, nodup_pyFromKeys _, ?_⟩
    intro g
    show g ∈ pyFromKeys (x.guards ++ y.guards) ↔ _
    exact mem_pyFromKeys _ g
  · decide

/-- C8 witness: the union law applied to the records carrying guards
["a","b"] and ["b","c"]. -/
theorem C8_guard_union_witness :
    ecG1.name = ecG2.name ∧
    ∃ e, CNC._merge_by_name [ecG1] [ecG2] = [e] ∧
      e.guards = pyFromKeys (ecG1.guards ++ ecG2.guards) ∧
      e.guards.Nodup ∧
      (∀ g, g ∈ e.guards ↔ g ∈ ecG1.guards ++ ecG2.guards) :=
  ⟨by decide, C8_guard_union.1 ecG1 ecG2 (by decide)⟩

/- ────────────────────────────────────────────────────────────────────────
   Claim C5 — shortest-non-empty snippet rule
   ──────────────────────────────────────────────────────────────────────── -/

/-- C5 counterexample: in `_add_from` of T.py, an empty incoming
code_snippet (and code_block) REPLACES the non-empty current one — its
length 0 is strictly smaller and there is no non-empty guard — so the claim
"an empty incoming snippet never replaces a non-empty current one" fails on
this merge site. -/
theorem C5_snippet_rule_counterexample :
    TPy._add_from "processed" [mcEmpty] (TPy._add_from "original" [mcLong] []) =
      [⟨"x", "", "", "", false, "both"⟩] := by decide

/-- C5 as amended: in the EC merges (`_merge_by_name` and its copies) the
shortest NON-EMPTY snippet wins — an empty incoming snippet never replaces,
an empty current is always replaced by a non-empty incoming, a strictly
shorter non-empty incoming wins, and a length tie keeps the first-seen
value; in `_add_from` of T.py the strictly shorter string wins without the
non-empty guard (so an empty incoming snippet replaces a non-empty current
one) and a tie keeps the first-seen value. -/
theorem C5_snippet_rule_amended :
    (∀ x y : CNC.EC, x.name = y.name →
      ∃ e, CNC._merge_by_name [x] [y] = [e] ∧
        (y.code_snippet = "" → e.code_snippet = x.code_snippet) ∧
        (x.code_snippet = "" → y.code_snippet ≠ "" → e.code_snippet = y.code_snippet) ∧
        (y.code_snippet ≠ "" → y.code_snippet.length < x.code_snippet.length →
          e.code_snippet = y.code_snippet) ∧
        (y.code_snippet.length = x.code_snippet.length →
          e.code_snippet = x.code_snippet)) ∧
    (∀ (s : String) (cur child : TPy.ChildRecord),
      (child.code_snippet.length < cur.code_snippet.length →
        (TPy.addUpd s cur child).code_snippet = child.code_snippet) ∧
      (child.code_snippet.length = cur.code_snippet.length →
        (TPy.addUpd s cur child).code_snippet = cur.code_snippet) ∧
      (cur.code_snippet ≠ "" → child.code_snippet = "" →
        (TPy.addUpd s cur child).code_snippet = "")) := by
  constructor
  · intro x y h
    refine ⟨CNC.mergeUpd x y, CNC.merge_singletons x y h, ?_, ?_, ?_, ?_⟩
    · exact CNC.mergeUpd_snippet_empty_incoming x y
    · exact CNC.mergeUpd_snippet_empty_current x y
    · exact fun h1 h2 => CNC.mergeUpd_snippet_shorter x y h1 h2
    · exact CNC.mergeUpd_snippet_tie x y
  · intro s cur child
    refine ⟨?_, ?_, ?_⟩
    · intro h
      simp [TPy.addUpd, h]
    · intro h
      simp [TPy.addUpd, h, lt_irrefl]
    · intro h1 h2
      have hlt : child.code_snippet.length < cur.code_snippet.length := by
        have hz : child.code_snippet.length = 0 := by rw [h2]; rfl
        have hpos : 0 < cur.code_snippet.length :=
          Nat.pos_of_ne_zero (fun h0 => h1 (CNC.string_eq_empty_of_length _ h0))
        omega
      simp [TPy.addUpd, hlt, h2]
      exact fun h0 => CNC.string_eq_empty_of_length _ h0

/-- C5 witness: the snippet rules applied at concrete records. -/
theorem C5_snippet_rule_witness :
    (seInst.name = seInst.name ∧
      ∃ e, CNC._merge_by_name [seInst] [seInst] = [e] ∧
        (seInst.code_snippet = "" → e.code_snippet = seInst.code_snippet) ∧
        (seInst.code_snippet = "" → seInst.code_snippet ≠ "" →
          e.code_snippet = seInst.code_snippet) ∧
        (seInst.code_snippet ≠ "" → seInst.code_snippet.length < seInst.code_snippet.length →
          e.code_snippet = seInst.code_snippet) ∧
        (seInst.code_snippet.length = seInst.code_snippet.length →
          e.code_snippet = seInst.code_snippet)) ∧
    ((⟨"x", "", "ab", "ab", false, "original"⟩ : TPy.ChildRecord).code_snippet ≠ "" ∧
      (⟨"x", "", "", "", false, "processed"⟩ : TPy.ChildRecord).code_snippet = "" ∧
      (TPy.addUpd "processed" ⟨"x", "", "ab", "ab", false, "original"⟩
        ⟨"x", "", "", "", false, "processed"⟩).code_snippet = "") := by
  refine ⟨⟨rfl, C5_snippet_rule_amended.1 seInst seInst rfl⟩, by decide, by decide, ?_⟩
  exact (C5_snippet_rule_amended.2 "processed" ⟨"x", "", "ab", "ab", false, "original"⟩
    ⟨"x", "", "", "", false, "processed"⟩).2.2 (by decide) (by decide)

namespace CNC

theorem mem_merge_entry (a b : List EC) (e : EC) (h : e ∈ _merge_by_name a b) :
    MergeCore.entry? (fun ec => ec.name) (mergeDict a b) e.name = some e := by
  unfold _merge_by_name at h
  rw [List.mem_map] at h
  obtain ⟨k, hk, hfk⟩ := h
  rw [mem_sortStable] at hk
  obtain ⟨e', he'⟩ := MergeCore.entry?_isSome_of_mem_keys (fun ec => ec.name)
    (mergeDict a b) k (by simpa [MergeCore.keys] using hk)
  rw [he'] at hfk
  simp only [Option.getD_some] at hfk
  subst hfk
  rw [entry?_rec_name _ _ _ he']
  exact he'

end CNC

/- ────────────────────────────────────────────────────────────────────────
   Claim C7 — merge idempotence
   ──────────────────────────────────────────────────────────────────────── -/

/-- C7 counterexample: a normalized record whose guards list contains an
internal duplicate (normalization keeps guards verbatim) changes under
self-merge — `dict.fromkeys` deduplicates its guards — so `merge(A, A)` is
not `A` deduplicated by key with identical field values. -/
theorem C7_merge_idempotence_counterexample :
    CNC._merge_by_name [ecDupGuards] [ecDupGuards] ≠ [ecDupGuards] ∧
    CNC._merge_by_name [ecDupGuards] [ecDupGuards] =
      [⟨"n", "", "", false, 0, false, [JAtom.jstr "a"]⟩] := by
  exact ⟨by decide, by decide⟩

/-- C7 as amended: for a list with pairwise-distinct names and
duplicate-free guards lists, merging the list with itself returns exactly
the list, sorted by name, with every field value unchanged. -/
theorem C7_merge_idempotence_amended :
    ∀ a : List CNC.EC, (a.map (fun ec => ec.name)).Nodup →
      (∀ ec ∈ a, ec.guards.Nodup) →
      CNC._merge_by_name a a =
        sortStable (fun x y : CNC.EC => strLtB x.name y.name) a :=
  CNC.merge_by_name_self

/-- C7 witness: self-merge of a concrete two-record list returns the list
sorted by name with identical fields. -/
theorem C7_merge_idempotence_witness :
    (([ecB7, ecA7].map (fun ec => ec.name)).Nodup ∧
      ∀ ec ∈ [ecB7, ecA7], ec.guards.Nodup) ∧
    CNC._merge_by_name [ecB7, ecA7] [ecB7, ecA7] =
      sortStable (fun x y : CNC.EC => strLtB x.name y.name) [ecB7, ecA7] :=
  ⟨⟨by decide, by decide⟩,
    C7_merge_idempotence_amended [ecB7, ecA7] (by decide) (by decide)⟩

/- ────────────────────────────────────────────────────────────────────────
   Claim C6 — deterministic sorted output
   ──────────────────────────────────────────────────────────────────────── -/

/-- C6 counterexample: two composite-key records with the same sort key
`(code_snippet, variant, name)` but different comments are ordered by
arrival: the stable sort keeps dict insertion order on the tie, so the
composite merge output depends on which list is iterated first. -/
theorem C6_sorted_output_counterexample :
    Corr._merge_ecs [ceInst] [ceSrc] ≠ Corr._merge_ecs [ceSrc] [ceInst] ∧
    Corr.sortKey ceInst = Corr.sortKey ceSrc ∧
    Corr._merge_ecs [ceSrc] [ceInst] = [ceSrc, ceInst] := by
  exact ⟨by decide, by decide, by decide⟩

/-- C6 as amended: name-only merges emit output sorted by name and the name
sequence is independent of arrival order; composite merges emit output
sorted by `(code_snippet, variant, name)`, with ties between distinct
composite keys broken by insertion (arrival) order. -/
theorem C6_sorted_output_amended :
    (∀ a b : List CNC.EC,
      SortedB (fun x y : CNC.EC => strLtB x.name y.name) (CNC._merge_by_name a b)) ∧
    (∀ a b : List Corr.EC, SortedB Corr.ecLtB (Corr._merge_ecs a b)) ∧
    (∀ a b : List CNC.EC,
      (CNC._merge_by_name a b).map (fun ec => ec.name) =
        (CNC._merge_by_name b a).map (fun ec => ec.name)) := by
  refine ⟨CNC.merge_by_name_sortedB, ?_, CNC.merge_names_comm⟩
  intro a b
  exact sortedB_sortStable Corr.ecLtB (fun _ _ h => tripLtB_asymm _ _ h)
    (fun _ _ _ h1 h2 => tripLtB_letrans _ _ _ h1 h2) _

/- ────────────────────────────────────────────────────────────────────────
   Claim C1 — merge commutativity
   ──────────────────────────────────────────────────────────────────────── -/

/-- C1 counterexample: `merge(A,B)` and `merge(B,A)` differ field-for-field
at a concrete input — the guard union keeps first-seen order, so the merged
guards lists are ["a","b"] versus ["b","a"] — and the documented output sort
(by name) cannot repair a field-level difference. -/
theorem C1_merge_commutativity_counterexample :
    CNC._merge_by_name [ecGA] [ecGB] ≠ CNC._merge_by_name [ecGB] [ecGA] ∧
    (CNC._merge_by_name [ecGA] [ecGB]).map (fun e => e.guards) =
      [[JAtom.jstr "a", JAtom.jstr "b"]] ∧
    (CNC._merge_by_name [ecGB] [ecGA]).map (fun e => e.guards) =
      [[JAtom.jstr "b", JAtom.jstr "a"]] := by
  exact ⟨by decide, by decide, by decide⟩

/-- C1 as amended: `merge(A,B)` and `merge(B,A)` agree on the sorted name
sequence, and records with the same name agree on confidence, conditioned
and further_expand, and carry the same guards as sets; only the textual
tie-breaks and the guard ordering can depend on iteration order. -/
theorem C1_merge_commutativity_amended :
    ∀ a b : List CNC.EC,
      (CNC._merge_by_name a b).map (fun ec => ec.name) =
        (CNC._merge_by_name b a).map (fun ec => ec.name) ∧
      ∀ e1 ∈ CNC._merge_by_name a b, ∀ e2 ∈ CNC._merge_by_name b a,
        e1.name = e2.name →
          e1.confidence = e2.confidence ∧
          e1.conditioned = e2.conditioned ∧
          e1.further_expand = e2.further_expand ∧
          (∀ g, g ∈ e1.guards ↔ g ∈ e2.guards) := by
  intro a b
  refine ⟨CNC.merge_names_comm a b, ?_⟩
  intro e1 h1 e2 h2 hname
  have H1 := CNC.mem_merge_entry a b e1 h1
  have H2 := CNC.mem_merge_entry b a e2 h2
  rw [← hname] at H2
  have spec1 := CNC.merged_entry_spec a b e1.name e1 H1
  have spec2 := CNC.merged_entry_spec b a e1.name e2 H2
  have hMmem : ∀ r : CNC.EC,
      r ∈ (a ++ b).filter (fun c => decide (c.name = e1.name)) ↔
        r ∈ (b ++ a).filter (fun c => decide (c.name = e1.name)) := by
    intro r
    simp [List.mem_filter, List.mem_append, or_comm]
  obtain ⟨⟨hc1mem, hc1ub⟩, hcond1, hfur1, hg1⟩ := spec1
  obtain ⟨⟨hc2mem, hc2ub⟩, hcond2, hfur2, hg2⟩ := spec2
  have h12 : e1.confidence ≤ e2.confidence := by
    rw [List.mem_map] at hc1mem
    obtain ⟨r, hr, hrc⟩ := hc1mem
    rw [← hrc]
    exact hc2ub _ (List.mem_map_of_mem _ ((hMmem r).mp hr))
  have h21 : e2.confidence ≤ e1.confidence := by
    rw [List.mem_map] at hc2mem
    obtain ⟨r, hr, hrc⟩ := hc2mem
    rw [← hrc]
    exact hc1ub _ (List.mem_map_of_mem _ ((hMmem r).mpr hr))
  refine ⟨le_antisymm h12 h21, ?_, ?_, ?_⟩
  · have hiff : (e1.conditioned = true) ↔ (e2.conditioned = true) := by
      rw [hcond1, hcond2]
      constructor
      · rintro ⟨r, hr, h⟩
        exact ⟨r, (hMmem r).mp hr, h⟩
      · rintro ⟨r, hr, h⟩
        exact ⟨r, (hMmem r).mpr hr, h⟩
    revert hiff
    cases e1.conditioned <;> cases e2.conditioned <;> simp
  · have hiff : (e1.further_expand = true) ↔ (e2.further_expand = true) := by
      rw [hfur1, hfur2]
      constructor
      · rintro ⟨r, hr, h⟩
        exact ⟨r, (hMmem r).mp hr, h⟩
      · rintro ⟨r, hr, h⟩
        exact ⟨r, (hMmem r).mpr hr, h⟩
    revert hiff
    cases e1.further_expand <;> cases e2.further_expand <;> simp
  · intro g
    rw [hg1 g, hg2 g]
    constructor
    · rintro ⟨r, hr, h⟩
      exact ⟨r, (hMmem r).mp hr, h⟩
    · rintro ⟨r, hr, h⟩
      exact ⟨r, (hMmem r).mpr hr, h⟩

/-- C1 witness: the agreement laws applied to the two concrete merge
results of the counterexample pair. -/
theorem C1_merge_commutativity_witness :
    ((⟨"n", "", "", false, 0, false, [JAtom.jstr "a", JAtom.jstr "b"]⟩ : CNC.EC) ∈
        CNC._merge_by_name [ecGA] [ecGB]) ∧
    ((⟨"n", "", "", false, 0, false, [JAtom.jstr "b", JAtom.jstr "a"]⟩ : CNC.EC) ∈
        CNC._merge_by_name [ecGB] [ecGA]) ∧
    ((⟨"n", "", "", false, 0, false, [JAtom.jstr "a", JAtom.jstr "b"]⟩ : CNC.EC).confidence =
        (⟨"n", "", "", false, 0, false, [JAtom.jstr "b", JAtom.jstr "a"]⟩ : CNC.EC).confidence ∧
      (⟨"n", "", "", false, 0, false, [JAtom.jstr "a", JAtom.jstr "b"]⟩ : CNC.EC).conditioned =
        (⟨"n", "", "", false, 0, false, [JAtom.jstr "b", JAtom.jstr "a"]⟩ : CNC.EC).conditioned ∧
      (⟨"n", "", "", false, 0, false, [JAtom.jstr "a", JAtom.jstr "b"]⟩ : CNC.EC).further_expand =
        (⟨"n", "", "", false, 0, false, [JAtom.jstr "b", JAtom.jstr "a"]⟩ : CNC.EC).further_expand ∧
      ∀ g, g ∈ (⟨"n", "", "", false, 0, false, [JAtom.jstr "a", JAtom.jstr "b"]⟩ : CNC.EC).guards ↔
        g ∈ (⟨"n", "", "", false, 0, false, [JAtom.jstr "b", JAtom.jstr "a"]⟩ : CNC.EC).guards) := by
  refine ⟨by decide, by decide, ?_⟩
  exact (C1_merge_commutativity_amended [ecGA] [ecGB]).2
    ⟨"n", "", "", false, 0, false, [JAtom.jstr "a", JAtom.jstr "b"]⟩ (by decide)
    ⟨"n", "", "", false, 0, false, [JAtom.jstr "b", JAtom.jstr "a"]⟩ (by decide) (by decide)

/- ────────────────────────────────────────────────────────────────────────
   Claim C10 — empty denylist behaves as omitted
   ──────────────────────────────────────────────────────────────────────── -/

/-- C10: in the JSON-based extractor families, an explicitly empty denylist
behaves exactly as an omitted one — the whole extraction is equal call for
call — because `denylist or DEFAULT_DENYLIST` treats the empty list as
falsy; only a non-empty denylist overrides the default. -/
theorem C10_empty_denylist_default :
    (∀ (llm : LlmOracle) (n : Nat) (req : NL.LInput),
      NL.extract_lambda_children llm n req (some []) =
        NL.extract_lambda_children llm n req none) ∧
    (∀ (llm : LlmOracle) (n : Nat) (req : LVD.LVInput),
      LVD.extract_local_variable_declarations llm n req (some []) =
        LVD.extract_local_variable_declarations llm n req none) ∧
    pyOrList (some []) NL.DEFAULT_DENYLIST = NL.DEFAULT_DENYLIST ∧
    pyOrList none NL.DEFAULT_DENYLIST = NL.DEFAULT_DENYLIST ∧
    (∀ l : List String, l ≠ [] → pyOrList (some l) NL.DEFAULT_DENYLIST = l) := by
  refine ⟨fun llm n req => rfl, fun llm n req => rfl, rfl, rfl, ?_⟩
  intro l hl
  cases l with
  | nil => exact absurd rfl hl
  | cons x xs => rfl

/-- C10 witness: the override law at a concrete non-empty denylist, and the
equal-extraction law at a concrete oracle and request. -/
theorem C10_empty_denylist_default_witness :
    pyOrList (some ["x"]) NL.DEFAULT_DENYLIST = ["x"] ∧
    NL.extract_lambda_children failLlm 0 reqC (some []) =
      NL.extract_lambda_children failLlm 0 reqC none :=
  ⟨C10_empty_denylist_default.2.2.2.2 ["x"] (by decide),
    C10_empty_denylist_default.1 failLlm 0 reqC⟩

/- ────────────────────────────────────────────────────────────────────────
   Claim C2 — one retry with amended prompt; double failure propagates
   ──────────────────────────────────────────────────────────────────────── -/

/-- C2: a parse failure at a call site triggers exactly one retry — the
very next invocation, on the same system prompt with the reminder demanding
the minimal empty-result shape appended to the user prompt — and when that
retry also fails, `_invoke_json` raises; a doubly-failed parse at any of
the three call sites of `extract_chained_next_call` propagates the error to
the caller, never an empty (or any) result list. -/
theorem C2_retry_propagation :
    (∀ (llm : LlmOracle) (n : Nat) (system user : String) (v : JTop),
      llm.resp n system user = none →
      llm.resp (n + 1) system (user ++ CNC.jsonRetryReminder) = some v →
      CNC._invoke_json llm n system user = (Except.ok v, n + 2)) ∧
    (∀ (llm : LlmOracle) (n : Nat) (system user : String),
      llm.resp n system user = none →
      llm.resp (n + 1) system (user ++ CNC.jsonRetryReminder) = none →
      CNC._invoke_json llm n system user = (Except.error PyErr.parseFailure, n + 2)) ∧
    (∀ (llm : LlmOracle) (n : Nat) (req : CNC.CNCInput),
      llm.resp n CNC._RUNA_SYSTEM (CNC.runAUser req) = none →
      llm.resp (n + 1) CNC._RUNA_SYSTEM (CNC.runAUser req ++ CNC.jsonRetryReminder) = none →
      CNC.extract_chained_next_call llm n req = Except.error PyErr.parseFailure ∧
      ∀ l, CNC.extract_chained_next_call llm n req ≠ Except.ok l) ∧
    (∀ (llm : LlmOracle) (n : Nat) (req : CNC.CNCInput) (out1 : JTop)
        (ch1 : JTopField) (a1 : List CNC.EC),
      llm.resp n CNC._RUNA_SYSTEM (CNC.runAUser req) = some out1 →
      pyTopGet out1 "children" (JTopField.tobjs []) = Except.ok ch1 →
      CNC.normChildren ch1 = Except.ok a1 →
      llm.resp (n + 1) CNC._EXPLAIN_LINES_SYSTEM (CNC.explainUser req) = none →
      llm.resp (n + 1 + 1) CNC._EXPLAIN_LINES_SYSTEM
        (CNC.explainUser req ++ CNC.jsonRetryReminder) = none →
      CNC.extract_chained_next_call llm n req = Except.error PyErr.parseFailure ∧
      ∀ l, CNC.extract_chained_next_call llm n req ≠ Except.ok l) ∧
    (∀ (llm : LlmOracle) (n : Nat) (req : CNC.CNCInput) (out1 out2 : JTop)
        (ch1 linesV : JTopField) (a1 : List CNC.EC),
      llm.resp n CNC._RUNA_SYSTEM (CNC.runAUser req) = some out1 →
      pyTopGet out1 "children" (JTopField.tobjs []) = Except.ok ch1 →
      CNC.normChildren ch1 = Except.ok a1 →
      llm.resp (n + 1) CNC._EXPLAIN_LINES_SYSTEM (CNC.explainUser req) = some out2 →
      pyTopGet out2 "lines" (JTopField.tobjs []) = Except.ok linesV →
      llm.resp (n + 1 + 1) CNC._RUNB_SYSTEM
        (CNC.runBUser req (pyDumpsTopField linesV)) = none →
      llm.resp (n + 1 + 1 + 1) CNC._RUNB_SYSTEM
        (CNC.runBUser req (pyDumpsTopField linesV) ++ CNC.jsonRetryReminder) = none →
      CNC.extract_chained_next_call llm n req = Except.error PyErr.parseFailure ∧
      ∀ l, CNC.extract_chained_next_call llm n req ≠ Except.ok l) := by
  refine ⟨?_, ?_, ?_, ?_, ?_⟩
  · intro llm n system user v h1 h2
    simp only [CNC._invoke_json, h1, h2, if_true]
  · intro llm n system user h1 h2
    simp only [CNC._invoke_json, h1, h2, if_true]
  · intro llm n req h1 h2
    have hinv : CNC._invoke_json llm n CNC._RUNA_SYSTEM (CNC.runAUser req) =
        (Except.error PyErr.parseFailure, n + 2) := by
      simp only [CNC._invoke_json, h1, h2, if_true]
    unfold CNC.runAUser at hinv
    have hext : CNC.extract_chained_next_call llm n req = Except.error PyErr.parseFailure := by
      simp only [CNC.extract_chained_next_call, hinv]
    refine ⟨hext, ?_⟩
    intro l hl
    rw [hext] at hl
    cases hl
  · intro llm n req out1 ch1 a1 h1 h2 h3 h4 h5
    have hinv1 : CNC._invoke_json llm n CNC._RUNA_SYSTEM (CNC.runAUser req) =
        (Except.ok out1, n + 1) := by
      simp only [CNC._invoke_json, h1]
    have hinv2 : CNC._invoke_json llm (n + 1) CNC._EXPLAIN_LINES_SYSTEM
        (CNC.explainUser req) = (Except.error PyErr.parseFailure, n + 1 + 2) := by
      simp only [CNC._invoke_json, h4, h5, if_true]
    unfold CNC.runAUser at hinv1
    unfold CNC.explainUser at hinv2
    have hext : CNC.extract_chained_next_call llm n req = Except.error PyErr.parseFailure := by
      simp only [CNC.extract_chained_next_call, hinv1, h2, h3, hinv2]
    refine ⟨hext, ?_⟩
    intro l hl
    rw [hext] at hl
    cases hl
  · intro llm n req out1 out2 ch1 linesV a1 h1 h2 h3 h4 h5 h6 h7
    have hinv1 : CNC._invoke_json llm n CNC._RUNA_SYSTEM (CNC.runAUser req) =
        (Except.ok out1, n + 1) := by
      simp only [CNC._invoke_json, h1]
    have hinv2 : CNC._invoke_json llm (n + 1) CNC._EXPLAIN_LINES_SYSTEM
        (CNC.explainUser req) = (Except.ok out2, n + 1 + 1) := by
      simp only [CNC._invoke_json, h4]
    have hinv3 : CNC._invoke_json llm (n + 1 + 1) CNC._RUNB_SYSTEM
        (CNC.runBUser req (pyDumpsTopField linesV)) =
        (Except.error PyErr.parseFailure, n + 1 + 1 + 2) := by
      simp only [CNC._invoke_json, h6, h7, if_true]
    unfold CNC.runAUser at hinv1
    unfold CNC.explainUser at hinv2
    unfold CNC.runBUser at hinv3
    have hext : CNC.extract_chained_next_call llm n req = Except.error PyErr.parseFailure := by
      simp only [CNC.extract_chained_next_call, hinv1, h2, h3, hinv2, h5, hinv3]
    refine ⟨hext, ?_⟩
    intro l hl
    rw [hext] at hl
    cases hl

/-- C2 witness: the retry and propagation laws at concrete oracles — a
successful single retry, a doubly-failed single call, and a doubly-failed
parse at each of the three call sites of the extraction. -/
theorem C2_retry_propagation_witness :
    CNC._invoke_json retryLlm 0 "s" "u" = (Except.ok (JTop.tobj []), 2) ∧
    CNC._invoke_json failLlm 0 "s" "u" = (Except.error PyErr.parseFailure, 2) ∧
    CNC.extract_chained_next_call failLlm 0 reqC = Except.error PyErr.parseFailure ∧
    CNC.extract_chained_next_call okFirstLlm 0 reqC = Except.error PyErr.parseFailure ∧
    CNC.extract_chained_next_call okTwoLlm 0 reqC = Except.error PyErr.parseFailure := by
  refine ⟨?_, ?_, ?_, ?_, ?_⟩
  · exact C2_retry_propagation.1 retryLlm 0 "s" "u" (JTop.tobj []) rfl rfl
  · exact C2_retry_propagation.2.1 failLlm 0 "s" "u" rfl rfl
  · exact (C2_retry_propagation.2.2.1 failLlm 0 reqC rfl rfl).1
  · exact (C2_retry_propagation.2.2.2.1 okFirstLlm 0 reqC (JTop.tobj [])
      (JTopField.tobjs []) [] rfl rfl rfl rfl rfl).1
  · exact (C2_retry_propagation.2.2.2.2 okTwoLlm 0 reqC (JTop.tobj []) (JTop.tobj [])
      (JTopField.tobjs []) (JTopField.tobjs []) [] rfl rfl rfl rfl rfl rfl rfl).1
